import Mathlib

/-!
Verification development for the KEA image / raster-attribute-table I/O
engine (`geoh5/kea/_keaio.py`).

The Python source is shallowly embedded: pure computations become Lean
functions, the HDF5 container becomes explicit state records, fallible
operations return `Except PyErr`.  Machine integers are modelled as
`Nat`/`Int`; pixel values and table cells are modelled exactly (the codec
only moves values around, it performs no arithmetic on them).

External collaborators (numpy, h5py, pandas) are modelled from their
documented behaviour at exactly the call sites the source uses:
`numpy.promote_types` as an explicit promotion function over the KEA
storage types, h5py dataset slicing/assignment as list surgery that
returns copies on read, and `pandas.DataFrame(dict, columns=...)` as a
reordering of an association list.
-/

set_option maxRecDepth 2000

deriving instance DecidableEq for Except

namespace Kea

/-- Python-level failure outcomes of the embedded operations.  Each
constructor corresponds to one distinct `raise` site (or delegated
library failure) and carries the data interpolated into the message. -/
inductive PyErr where
  /-- `IndexError("Invalid band number: {band}")` in `read_rat`. -/
  | invalidBand (band : Nat)
  /-- `IndexError("Invalid column name... Valid column names are: {valid}")`
      in `read_rat`; carries the valid column-name list from the message. -/
  | colLookup (valid : List (Sum Nat String))
  /-- `IndexError("Column name(s) in usage not found in dataframe...")`
      in `write_rat`. -/
  | usageCols
  /-- `TypeError("Band {band} does not exist in the output file.")`. -/
  | bandNotExist (band : Nat)
  /-- `TypeError("1 or more bands does not exist in the output file.")`. -/
  | bandsNotExist
  /-- `TypeError("Data has {got} dimensions and should be 3.")`. -/
  | ndimMsg (got : Nat)
  /-- `TypeError("Number of bands, {expected}, doesn't match data shape, {got}.")`. -/
  | countMsg (expected : Nat) (got : Nat)
  /-- `TypeError("Required datatype is bool, received {got}")` in `write_mask`. -/
  | maskDtype (got : String)
  /-- `TypeError` from the link-target check in `add_image_band`. -/
  | linkNotExist (band : Nat)
  /-- Python `NameError`: a local variable referenced before assignment. -/
  | nameError
  /-- Delegated `KeyError` from a dict / HDF5-group lookup. -/
  | keyError
  /-- Delegated `ValueError` (e.g. an enum constructed from a bad code). -/
  | valueError
  /-- Delegated error from the storage layer (h5py/numpy shape or
      broadcast failure, out-of-range dataset access). -/
  | delegated
  deriving DecidableEq, Repr

/-- The KEA band storage types (`KeaDataType` codes 1-10; the spec's
"unsigned/signed integers of fixed widths, 32/64-bit floats").  The
`undefined` code never labels a band and is omitted. -/
inductive KeaDataType where
  | int8 | int16 | int32 | int64
  | uint8 | uint16 | uint32 | uint64
  | float32 | float64
  deriving DecidableEq, Repr, Fintype

namespace KeaDataType

/-- Numeric kind of a storage type: unsigned, signed, or floating. -/
inductive NKind where
  | u | i | f
  deriving DecidableEq, Repr

/-- Kind of each KEA storage type. -/
def kindOf : KeaDataType → NKind
  | .int8 | .int16 | .int32 | .int64 => .i
  | .uint8 | .uint16 | .uint32 | .uint64 => .u
  | .float32 | .float64 => .f

/-- Bit width of each KEA storage type. -/
def bitsOf : KeaDataType → Nat
  | .int8 => 8 | .int16 => 16 | .int32 => 32 | .int64 => 64
  | .uint8 => 8 | .uint16 => 16 | .uint32 => 32 | .uint64 => 64
  | .float32 => 32 | .float64 => 64

/-- Signed integer type of a given bit width. -/
def mkInt : Nat → KeaDataType
  | 8 => .int8 | 16 => .int16 | 32 => .int32 | _ => .int64

/-- Unsigned integer type of a given bit width. -/
def mkUInt : Nat → KeaDataType
  | 8 => .uint8 | 16 => .uint16 | 32 => .uint32 | _ => .uint64

/-- Float type of a given bit width. -/
def mkFloat : Nat → KeaDataType
  | 32 => .float32 | _ => .float64

/-- Width of the smallest float that numpy casts an integer of width `b`
into safely: `float32` exactly represents integers of up to 16 bits,
wider integers require `float64`. -/
def fltNeeded (b : Nat) : Nat := if b ≤ 16 then 32 else 64

/-- Combination of a signed type of width `sb` with an unsigned type of
width `ub` under numpy promotion: the signed type wins if strictly
wider, a 64-bit unsigned forces `float64`, otherwise the signed type of
twice the unsigned width. -/
def signedUnsigned (sb ub : Nat) : KeaDataType :=
  if ub < sb then mkInt sb
  else if ub = 64 then .float64
  else mkInt (2 * ub)

/-- `numpy.promote_types` restricted to the ten KEA storage types: the
minimal type both arguments cast into under numpy's safe-casting rules
(same kind: wider width wins; signed/unsigned mix: see `signedUnsigned`;
float with integer: float wide enough for the integer, at least the
given float). This is the pairwise combiner `_read_dtypes` folds with. -/
def promote (a b : KeaDataType) : KeaDataType :=
  match kindOf a, kindOf b with
  | .f, .f => mkFloat (max (bitsOf a) (bitsOf b))
  | .f, _ => mkFloat (max (bitsOf a) (fltNeeded (bitsOf b)))
  | _, .f => mkFloat (max (bitsOf b) (fltNeeded (bitsOf a)))
  | .i, .i => mkInt (max (bitsOf a) (bitsOf b))
  | .u, .u => mkUInt (max (bitsOf a) (bitsOf b))
  | .i, .u => signedUnsigned (bitsOf a) (bitsOf b)
  | .u, .i => signedUnsigned (bitsOf b) (bitsOf a)

end KeaDataType

open KeaDataType in
/-- `KeaImageRead._read_dtypes`, promotion part: starting from band 1's
type, fold `numpy.promote_types` over every band's declared type (band 1
is combined twice, as in the source loop).  Input: the declared types of
bands `1..count` in band order. -/
def readDtypes : List KeaDataType → KeaDataType
  | [] => .uint8
  | h :: t => (h :: t).foldl promote h

namespace KeaDataType

theorem promote_comm : ∀ a b : KeaDataType, promote a b = promote b a := by decide

theorem promote_self : ∀ a : KeaDataType, promote a a = a := by decide

theorem promote_absorb_left : ∀ a b : KeaDataType,
    promote a (promote a b) = promote a b := by decide

theorem promote_absorb_right : ∀ a b : KeaDataType,
    promote a (promote b a) = promote b a := by decide

theorem promote_step_pres : ∀ a b c : KeaDataType,
    promote a b = b → promote a (promote b c) = promote b c := by decide

/-- A type already absorbed into the accumulator stays absorbed through
the rest of the fold. -/
theorem absorb_foldl (t : KeaDataType) :
    ∀ (l : List KeaDataType) (acc : KeaDataType), promote t acc = acc →
      promote t (l.foldl promote acc) = l.foldl promote acc := by
  intro l
  induction l with
  | nil => intro acc h; simpa using h
  | cons hd tl ih =>
      intro acc h
      simp only [List.foldl_cons]
      exact ih (promote acc hd) (promote_step_pres t acc hd h)

/-- Every member of the folded list is absorbed by the fold's result. -/
theorem mem_absorb_foldl (t : KeaDataType) :
    ∀ (l : List KeaDataType) (acc : KeaDataType), t ∈ l →
      promote t (l.foldl promote acc) = l.foldl promote acc := by
  intro l
  induction l with
  | nil => intro acc h; cases h
  | cons hd tl ih =>
      intro acc h
      simp only [List.foldl_cons]
      rcases List.mem_cons.mp h with rfl | hmem
      · exact absorb_foldl t tl (promote acc t) (promote_absorb_right t acc)
      · exact ih (promote acc hd) hmem

end KeaDataType

open KeaDataType in
/-- Every declared band type is widenable (under the numpy safe-cast
order, expressed as absorption by `promote`) into the fold's result. -/
theorem readDtypes_absorbs (l : List KeaDataType) (t : KeaDataType) (ht : t ∈ l) :
    promote t (readDtypes l) = readDtypes l := by
  cases l with
  | nil => cases ht
  | cons h tl =>
      show promote t ((h :: tl).foldl promote h) = (h :: tl).foldl promote h
      exact mem_absorb_foldl t (h :: tl) h ht

/-- Exact value set of a KEA storage type, as rationals: integer types
denote their integer range; float types denote the dyadic rationals with
a 24-bit (`float32`) or 53-bit (`float64`) mantissa (exponent range and
non-finite values ignored, which only enlarges the float sets and so
only weakens any non-representability result proved against them). -/
def sem : KeaDataType → Set ℚ
  | .int8 => {q | ∃ z : ℤ, q = (z : ℚ) ∧ -(2 ^ 7) ≤ z ∧ z < 2 ^ 7}
  | .int16 => {q | ∃ z : ℤ, q = (z : ℚ) ∧ -(2 ^ 15) ≤ z ∧ z < 2 ^ 15}
  | .int32 => {q | ∃ z : ℤ, q = (z : ℚ) ∧ -(2 ^ 31) ≤ z ∧ z < 2 ^ 31}
  | .int64 => {q | ∃ z : ℤ, q = (z : ℚ) ∧ -(2 ^ 63) ≤ z ∧ z < 2 ^ 63}
  | .uint8 => {q | ∃ z : ℤ, q = (z : ℚ) ∧ 0 ≤ z ∧ z < 2 ^ 8}
  | .uint16 => {q | ∃ z : ℤ, q = (z : ℚ) ∧ 0 ≤ z ∧ z < 2 ^ 16}
  | .uint32 => {q | ∃ z : ℤ, q = (z : ℚ) ∧ 0 ≤ z ∧ z < 2 ^ 32}
  | .uint64 => {q | ∃ z : ℤ, q = (z : ℚ) ∧ 0 ≤ z ∧ z < 2 ^ 64}
  | .float32 => {q | ∃ m e : ℤ, |m| < 2 ^ 24 ∧ q = (m : ℚ) * (2 : ℚ) ^ e}
  | .float64 => {q | ∃ m e : ℤ, |m| < 2 ^ 53 ∧ q = (m : ℚ) * (2 : ℚ) ^ e}

/-- `t` is losslessly widenable into `u`: every value of `t` is exactly
representable in `u` (the spec's "losslessly widened into"). -/
def LosslessInto (t u : KeaDataType) : Prop := sem t ⊆ sem u

/-- The largest `int64` value is not a 53-bit-mantissa dyadic, so
`int64` does not widen losslessly into `float64`. -/
theorem not_lossless_int64_float64 : ¬ LosslessInto .int64 .float64 := by
  intro h
  have hx : ((9223372036854775807 : ℤ) : ℚ) ∈ sem .int64 :=
    ⟨9223372036854775807, rfl, by norm_num, by norm_num⟩
  obtain ⟨m, e, hm, heq⟩ := h hx
  have hm' : -(2 ^ 53) < m ∧ m < 2 ^ 53 := abs_lt.mp hm
  rcases Int.eq_nat_or_neg e with ⟨n, hn | hn⟩
  · subst hn
    rw [zpow_natCast] at heq
    have hz : (9223372036854775807 : ℤ) = m * 2 ^ n := by exact_mod_cast heq
    rcases Nat.eq_zero_or_pos n with rfl | hpos
    · simp at hz
      omega
    · have hdvd : (2 : ℤ) ∣ m * 2 ^ n :=
        Dvd.dvd.mul_left (dvd_pow_self 2 hpos.ne') m
      rw [← hz] at hdvd
      omega
  · subst hn
    rw [zpow_neg, zpow_natCast, ← div_eq_mul_inv] at heq
    have h2n : ((2 : ℚ) ^ n) ≠ 0 := by positivity
    rw [eq_div_iff h2n] at heq
    have hz : (9223372036854775807 : ℤ) * 2 ^ n = m := by exact_mod_cast heq
    have h1 : (1 : ℤ) ≤ 2 ^ n := by
      have := pow_pos (show (0 : ℤ) < 2 by norm_num) n
      omega
    nlinarith [hm'.2]

/-- C4 counterexample: the pairwise-promotion fold is NOT
order-independent — the same multiset of band types
`{uint16, int8, float32}` folds to `float64` in one band order and to
`float32` in another; and losslessness also fails: bands
`{int64, uint64}` promote to `float64`, into which `int64` is not
losslessly widenable. -/
theorem claim_C4_counterexample :
    [KeaDataType.uint16, .int8, .float32].Perm [KeaDataType.int8, .float32, .uint16] ∧
    readDtypes [KeaDataType.uint16, .int8, .float32] = .float64 ∧
    readDtypes [KeaDataType.int8, .float32, .uint16] = .float32 ∧
    KeaDataType.float64 ≠ KeaDataType.float32 ∧
    readDtypes [KeaDataType.int64, .uint64] = .float64 ∧
    ¬ LosslessInto .int64 (readDtypes [KeaDataType.int64, .uint64]) := by
  refine ⟨by decide, by decide, by decide, by decide, by decide, ?_⟩
  have h : readDtypes [KeaDataType.int64, .uint64] = .float64 := by decide
  rw [h]
  exact not_lossless_int64_float64

open KeaDataType in
/-- C4 amended: the pairwise promotion operation is commutative, and
every band's declared type is widenable into the fold's final type
under the numpy safe-cast order (it is absorbed by the result), but the
fold is not independent of band order and the widening is not always
lossless. -/
theorem claim_C4_amended :
    (∀ a b : KeaDataType, promote a b = promote b a) ∧
    (∀ (l : List KeaDataType) (t : KeaDataType), t ∈ l →
      promote t (readDtypes l) = readDtypes l) :=
  ⟨promote_comm, fun l t ht => readDtypes_absorbs l t ht⟩

open KeaDataType in
/-- C4 amended, instantiated: concrete commutativity and absorption
facts obtained from `claim_C4_amended`. -/
theorem claim_C4_amended_witness :
    promote .uint8 .float32 = promote .float32 .uint8 ∧
    promote .uint16 (readDtypes [KeaDataType.uint16, .int8, .float32]) =
      readDtypes [KeaDataType.uint16, .int8, .float32] :=
  ⟨claim_C4_amended.1 .uint8 .float32,
   claim_C4_amended.2 [KeaDataType.uint16, .int8, .float32] .uint16 (by decide)⟩

/-! ## Band / mask windowed array I/O

The image side of the container is modelled by `ImgState`: a heap of
physical 2D data areas (so that two logical bands may alias one area via
an HDF5 hard link), plus the per-band registry entries the I/O paths
consult (`_mask_datasets`, `_no_data`, `_dtypes`).  Components of the
container not consulted by any embedded operation (descriptions,
metadata, layer tags, overviews) are omitted.  2D datasets and ndarrays
are row-major `List (List _)`; h5py slicing returns copies, slice
bounds clamp like numpy's, and `read_direct` / element assignment
require matching shapes (degenerate numpy broadcasts of a mismatched
source are modelled as the delegated error; no theorem relies on such a
case). -/

/-- Shape of a rectangular 2D array, `none` if ragged (ndarrays are
always rectangular; `none` cannot arise from a real array). -/
def shape2 {α : Type} : List (List α) → Option (Nat × Nat)
  | [] => some (0, 0)
  | r :: rest =>
      if (r :: rest).all (fun row => row.length = r.length) then
        some (rest.length + 1, r.length)
      else none

/-- A read window `((ystart, ystop), (xstart, xstop))`. -/
abbrev Win := (Nat × Nat) × (Nat × Nat)

/-- `a[ys:ye, xs:xe]`: numpy/h5py rectangular slice (bounds clamp). -/
def readWin {α : Type} (g : List (List α)) (w : Win) : List (List α) :=
  ((g.drop w.1.1).take (w.1.2 - w.1.1)).map fun r =>
    (r.drop w.2.1).take (w.2.2 - w.2.1)

/-- The window lies inside shape `sh` with ordered bounds (the only
windows the embedded theorems exercise). -/
def winOk (sh : Option (Nat × Nat)) (w : Win) : Bool :=
  match sh with
  | none => false
  | some (r, c) => w.1.1 ≤ w.1.2 && w.1.2 ≤ r && w.2.1 ≤ w.2.2 && w.2.2 ≤ c

/-- `target[ys:ye, xs:xe] = src`: overwrite the window region with
`src` (callers establish that `src` has the window's shape). -/
def patchGrid {α : Type} (target : List (List α)) (w : Win) (src : List (List α)) :
    List (List α) :=
  target.mapIdx fun i row =>
    if w.1.1 ≤ i ∧ i < w.1.2 then
      row.mapIdx fun j v =>
        if w.2.1 ≤ j ∧ j < w.2.2 then ((src.getD (i - w.1.1) []).getD (j - w.2.1) v)
        else v
    else row

/-- Pixel plane of one band's DATA area. -/
abbrev Grid := List (List Int)

/-- A uint8 MASK plane. -/
abbrev MGrid := List (List Nat)

/-- A 2D or 3D ndarray argument/result. -/
inductive NDData (α : Type) where
  | d2 (g : List (List α))
  | d3 (gs : List (List (List α)))
  deriving DecidableEq, Repr

/-- `ndarray.ndim` of an `NDData`. -/
def NDData.ndim {α : Type} : NDData α → Nat
  | .d2 _ => 2
  | .d3 _ => 3

/-- The band-selection argument: a plain integer, or a sequence of band
numbers (`isinstance(bands, collections.Sequence)` dispatch); `None`
defaults to the sequence `range(1, count + 1)` at each call site. -/
inductive BandSel where
  | one (b : Nat)
  | many (bs : List Nat)
  deriving DecidableEq, Repr

/-- In-memory image state: physical data areas (`heap`), the band → area
mapping (`bandAddr`, position `b - 1` for band `b`; two bands alias one
area when their addresses coincide), and the per-band registry of mask
datasets, no-data sentinels and declared storage types. -/
structure ImgState where
  height : Nat
  width : Nat
  heap : List Grid
  bandAddr : List Nat
  masks : List (Option MGrid)
  noData : List (Option Int)
  dtypes : List KeaDataType
  deriving DecidableEq, Repr

/-- Number of bands (`self._count` / `HEADER/NUMBANDS`). -/
def ImgState.count (s : ImgState) : Nat := s.bandAddr.length

/-- `self._band_datasets[b]`: dict lookup (keys `1..count`) followed by
dereferencing the band's physical data area. -/
def bandDset (s : ImgState) (b : Nat) : Except PyErr Grid :=
  if 1 ≤ b ∧ b ≤ s.bandAddr.length then
    match s.heap.get? (s.bandAddr.getD (b - 1) 0) with
    | some g => .ok g
    | none => .error .keyError
  else .error .keyError

/-- `self._mask_datasets[b]`: dict lookup, `None` when the band has no
MASK dataset. -/
def maskEntry (s : ImgState) (b : Nat) : Except PyErr (Option MGrid) :=
  if 1 ≤ b ∧ b ≤ s.masks.length then .ok (s.masks.getD (b - 1) none)
  else .error .keyError

/-- `self.no_data[b]`: dict lookup of the no-data sentinel. -/
def noDataEntry (s : ImgState) (b : Nat) : Except PyErr (Option Int) :=
  if 1 ≤ b ∧ b ≤ s.noData.length then .ok (s.noData.getD (b - 1) none)
  else .error .keyError

/-- The default `bands=None` is replaced by `range(1, count + 1)` (a
sequence) before dispatch. -/
def selOf (s : ImgState) : Option BandSel → BandSel
  | none => .many (List.range' 1 s.count)
  | some sel => sel

/-- `KeaImageRead.read`.  Sequence selection: allocate
`zeros((nb, h, w), dtype=self.dtype)` — the promoted type — and
`read_direct` each band's plane into it (`read_direct` requires the
source (or source window) to match the destination plane's shape;
values are preserved).  Integer selection: plain dataset slicing, which
returns the dataset's own declared type, and clamps window bounds. -/
def readImg (s : ImgState) (bands : Option BandSel) (window : Option Win) :
    Except PyErr (KeaDataType × NDData Int) :=
  match selOf s bands with
  | .many bs =>
      match window with
      | none =>
          (bs.mapM fun b =>
            (match bandDset s b with
             | .error e => .error e
             | .ok g =>
                 if shape2 g = some (s.height, s.width) then .ok g
                 else Except.error .delegated : Except PyErr Grid)).map
            fun planes => (readDtypes s.dtypes, .d3 planes)
      | some w =>
          (bs.mapM fun b =>
            (match bandDset s b with
             | .error e => .error e
             | .ok g =>
                 if winOk (shape2 g) w then .ok (readWin g w)
                 else Except.error .delegated : Except PyErr Grid)).map
            fun planes => (readDtypes s.dtypes, .d3 planes)
  | .one b =>
      match window with
      | none =>
          (bandDset s b).map fun g => (s.dtypes.getD (b - 1) .uint8, .d2 g)
      | some w =>
          (bandDset s b).map fun g => (s.dtypes.getD (b - 1) .uint8, .d2 (readWin g w))

/-- `(band_plane != no_data) * 255`: elementwise inequality test against
the sentinel, scaled to the uint8 mask values. -/
def synthMask (g : Grid) (noData : Int) : MGrid :=
  g.map fun row => row.map fun v => if v ≠ noData then 255 else 0

/-- An all-zero uint8 plane (`numpy.zeros`). -/
def zerosM (h w : Nat) : MGrid := List.replicate h (List.replicate w 0)

/-- An all-255 uint8 plane (result of `mask.fill(255)` on a fresh plane). -/
def fullM (h w : Nat) : MGrid := List.replicate h (List.replicate w 255)

/-- One iteration of `read_mask`'s sequence loop without a window, band
`b` writing plane `i` of the accumulated `(nb, h, w)` array.  NOTE
(faithful to the source): in the branch with no mask dataset and no
sentinel the source executes `mask.fill(255)`, filling the WHOLE 3D
array, not just plane `i`. -/
def readMaskStep (s : ImgState) (nb : Nat) (acc : List MGrid) (i b : Nat) :
    Except PyErr (List MGrid) :=
  match maskEntry s b with
  | .error e => .error e
  | .ok (some m) =>
      if shape2 m = some (s.height, s.width) then .ok (acc.set i m)
      else Except.error .delegated
  | .ok none =>
      match noDataEntry s b with
      | .error e => .error e
      | .ok none => .ok (List.replicate nb (fullM s.height s.width))
      | .ok (some nd) =>
          match bandDset s b with
          | .error e => .error e
          | .ok g =>
              let sm := synthMask g nd
              if shape2 sm = some (s.height, s.width) then .ok (acc.set i sm)
              else Except.error .delegated

/-- One iteration of `read_mask`'s sequence loop with a window; the
no-mask/no-sentinel branch again fills the whole 3D array. -/
def readMaskStepWin (s : ImgState) (nb : Nat) (w : Win) (acc : List MGrid) (i b : Nat) :
    Except PyErr (List MGrid) :=
  let ysize := w.1.2 - w.1.1
  let xsize := w.2.2 - w.2.1
  match maskEntry s b with
  | .error e => .error e
  | .ok none =>
      match noDataEntry s b with
      | .error e => .error e
      | .ok none => .ok (List.replicate nb (fullM ysize xsize))
      | .ok (some nd) =>
          match bandDset s b with
          | .error e => .error e
          | .ok g =>
              let sm := synthMask (readWin g w) nd
              if shape2 sm = some (ysize, xsize) then .ok (acc.set i sm)
              else Except.error .delegated
  | .ok (some m) =>
      if winOk (shape2 m) w then .ok (acc.set i (readWin m w))
      else Except.error .delegated

/-- Loop of `read_mask` over `enumerate(bands)`. -/
def readMaskLoop (step : List MGrid → Nat → Nat → Except PyErr (List MGrid))
    (acc : List MGrid) (i : Nat) : List Nat → Except PyErr (List MGrid)
  | [] => .ok acc
  | b :: rest =>
      match step acc i b with
      | .error e => .error e
      | .ok acc' => readMaskLoop step acc' (i + 1) rest

/-- `KeaImageRead.read_mask`.  Sequence selection: the per-band loop
above over a zero-initialised `(nb, h, w)` or `(nb, ysize, xsize)`
uint8 array.  Integer selection: the source's single-band branches read
the local variable `band`, which is never assigned on those paths, so
they raise `NameError` unconditionally. -/
def readMask (s : ImgState) (bands : Option BandSel) (window : Option Win) :
    Except PyErr (NDData Nat) :=
  match selOf s bands with
  | .many bs =>
      match window with
      | none =>
          (readMaskLoop (readMaskStep s bs.length)
            (List.replicate bs.length (zerosM s.height s.width)) 0 bs).map
            fun planes => .d3 planes
      | some w =>
          (readMaskLoop (readMaskStepWin s bs.length w)
            (List.replicate bs.length (zerosM (w.1.2 - w.1.1) (w.2.2 - w.2.1))) 0 bs).map
            fun planes => .d3 planes
  | .one _ => .error .nameError

/-- Replace band `b`'s physical data area. -/
def setBandData (s : ImgState) (b : Nat) (g : Grid) : ImgState :=
  { s with heap := s.heap.set (s.bandAddr.getD (b - 1) 0) g }

/-- Delegated `dset[:] = src`: h5py requires the source to match the
dataset's shape (degenerate broadcasts of mismatched shapes are
modelled as the delegated error; no theorem relies on one). -/
def dsetWriteFull {α : Type} (target src : List (List α)) :
    Except PyErr (List (List α)) :=
  match shape2 target, shape2 src with
  | some st, some ss => if ss = st then .ok src else .error .delegated
  | _, _ => .error .delegated

/-- Delegated `dset[:] = data` for an ndarray of any rank: numpy strips
a leading length-1 axis of a 3D source; a 3D source with more than one
plane can never broadcast into a 2D dataset. -/
def dsetAssignArr (target : Grid) (a : NDData Int) : Except PyErr Grid :=
  match a with
  | .d2 g => dsetWriteFull target g
  | .d3 [g] => dsetWriteFull target g
  | .d3 _ => .error .delegated

/-- Delegated `dset[ys:ye, xs:xe] = src` with a 2D source: the source
must match the window's shape. -/
def dsetWriteWin {α : Type} (target : List (List α)) (w : Win) (src : List (List α)) :
    Except PyErr (List (List α)) :=
  if winOk (shape2 target) w ∧ shape2 src = some (w.1.2 - w.1.1, w.2.2 - w.2.1) then
    .ok (patchGrid target w src)
  else .error .delegated

/-- Delegated `dset[ys:ye, xs:xe] = data` for an ndarray of any rank. -/
def dsetAssignWinArr (target : Grid) (w : Win) (a : NDData Int) : Except PyErr Grid :=
  match a with
  | .d2 g => dsetWriteWin target w g
  | .d3 [g] => dsetWriteWin target w g
  | .d3 _ => .error .delegated

/-- Loop of `write` over `enumerate(bands)` for a sequence selection
(the window is fixed across iterations). -/
def writeLoop (win : Option Win) : ImgState → List (Nat × Grid) → Except PyErr ImgState
  | s, [] => .ok s
  | s, (b, g) :: rest =>
      match bandDset s b with
      | .error e => .error e
      | .ok target =>
          match (match win with
                 | none => dsetWriteFull target g
                 | some w => dsetWriteWin target w g) with
          | .error e => .error e
          | .ok g' => writeLoop win (setBandData s b g') rest

/-- `KeaImageReadWrite.write`.  Sequence selection: validate that all
bands exist, that the data is 3-dimensional, and that the first axis
matches the number of bands, then assign each plane; the height/width
are NOT validated here (left to the delegated assignment).  Integer
selection: validate only that the band exists, then assign — no core
shape check at all. -/
def writeImg (s : ImgState) (data : NDData Int) (bands : BandSel) (window : Option Win) :
    Except PyErr ImgState :=
  match bands with
  | .many bs =>
      if ¬ bs.all (fun b => 1 ≤ b && b ≤ s.bandAddr.length) then .error .bandsNotExist
      else
        match data with
        | .d2 _ => .error (.ndimMsg 2)
        | .d3 gs =>
            if gs.length ≠ bs.length then .error (.countMsg bs.length gs.length)
            else writeLoop window s (bs.zip gs)
  | .one b =>
      if ¬ (1 ≤ b ∧ b ≤ s.bandAddr.length) then .error (.bandNotExist b)
      else
        match bandDset s b with
        | .error e => .error e
        | .ok target =>
            match (match window with
                   | none => dsetAssignArr target data
                   | some w => dsetAssignWinArr target w data) with
            | .error e => .error e
            | .ok g' => .ok (setBandData s b g')

/-- A boolean ndarray argument to `write_mask`, together with its numpy
dtype name (`data.dtype is numpy.dtype('bool')` compares dtype
identity, which for builtin dtypes is name equality; the payload of a
non-bool array is never inspected before the dtype check fails). -/
structure MaskArr where
  dtypeName : String
  arr : NDData Bool
  deriving DecidableEq, Repr

/-- Boolean-mask assignment `m[bm] = 255`: positions where `bm` is true
become 255, others keep their prior value. -/
def paintMask (m : MGrid) (bm : List (List Bool)) : MGrid :=
  (m.zip bm).map fun p => (p.1.zip p.2).map fun q => if q.2 then 255 else q.1

/-- `mdsets[band][bm] = 255` without a window: fails if the band has no
mask dataset (`None[...]` is a TypeError) or the boolean index does not
match the dataset's shape. -/
def maskAssignFull (m : Option MGrid) (bm : List (List Bool)) : Except PyErr MGrid :=
  match m with
  | none => .error .delegated
  | some m =>
      if shape2 bm = shape2 m ∧ (shape2 m).isSome then .ok (paintMask m bm)
      else .error .delegated

/-- `mdsets[band][idx][bm] = 255` with a window: `mdsets[band][idx]`
reads an in-memory COPY of the window; painting the copy changes
nothing in the file, so on success the dataset is left as it was. -/
def maskAssignWin (m : Option MGrid) (w : Win) (bm : List (List Bool)) :
    Except PyErr Unit :=
  match m with
  | none => .error .delegated
  | some m =>
      if shape2 bm = shape2 (readWin m w) ∧ (shape2 (readWin m w)).isSome then .ok ()
      else .error .delegated

/-- Loop of `write_mask` over `enumerate(bands)` for a sequence
selection. -/
def writeMaskLoop (win : Option Win) :
    ImgState → List (Nat × List (List Bool)) → Except PyErr ImgState
  | s, [] => .ok s
  | s, (b, bm) :: rest =>
      match maskEntry s b with
      | .error e => .error e
      | .ok me =>
          match win with
          | none =>
              match maskAssignFull me bm with
              | .error e => .error e
              | .ok m' =>
                  writeMaskLoop none
                    { s with masks := s.masks.set (b - 1) (some m') } rest
          | some w =>
              match maskAssignWin me w bm with
              | .error e => .error e
              | .ok _ => writeMaskLoop (some w) s rest

/-- `KeaImageReadWrite.write_mask`: the strict boolean dtype check comes
first, before any band validation or I/O; then band-existence /
dimensionality / band-count checks as in `write`; then per band either
a boolean-mask paint of the mask dataset (no window) or a paint of a
discarded in-memory window copy (with a window). -/
def writeMask (s : ImgState) (d : MaskArr) (bands : BandSel) (window : Option Win) :
    Except PyErr ImgState :=
  if d.dtypeName ≠ "bool" then .error (.maskDtype d.dtypeName)
  else
    match bands with
    | .many bs =>
        if ¬ bs.all (fun b => 1 ≤ b && b ≤ s.bandAddr.length) then .error .bandsNotExist
        else
          match d.arr with
          | .d2 _ => .error (.ndimMsg 2)
          | .d3 bms =>
              if bms.length ≠ bs.length then .error (.countMsg bs.length bms.length)
              else writeMaskLoop window s (bs.zip bms)
    | .one b =>
        if ¬ (1 ≤ b ∧ b ≤ s.bandAddr.length) then .error (.bandNotExist b)
        else
          match maskEntry s b with
          | .error e => .error e
          | .ok me =>
              match window, d.arr with
              | none, .d2 bm =>
                  match maskAssignFull me bm with
                  | .error e => .error e
                  | .ok m' => .ok { s with masks := s.masks.set (b - 1) (some m') }
              | none, .d3 _ => .error .delegated
              | some w, .d2 bm =>
                  match maskAssignWin me w bm with
                  | .error e => .error e
                  | .ok _ => .ok s
              | some _, .d3 _ => .error .delegated

/-- `KeaImageReadWrite.add_image_band`: with `link=k`, after checking
that band `k` exists, the new band's DATA name is hard-linked to band
`k`'s physical area (same heap address) and its DATATYPE is copied from
band `k`; without a link a fresh area is allocated, filled with the
no-data value (h5py `fillvalue`, 0 when absent).  Either way the new
band has no MASK dataset and `HEADER/NUMBANDS` becomes `count + 1`. -/
def addImageBand (s : ImgState) (dtype : KeaDataType) (noData : Option Int)
    (link : Option Nat) : Except PyErr ImgState :=
  match link with
  | some k =>
      if ¬ (1 ≤ k ∧ k ≤ s.bandAddr.length) then .error (.linkNotExist k)
      else .ok { s with
        bandAddr := s.bandAddr ++ [s.bandAddr.getD (k - 1) 0]
        masks := s.masks ++ [none]
        noData := s.noData ++ [noData]
        dtypes := s.dtypes ++ [s.dtypes.getD (k - 1) .uint8] }
  | none =>
      .ok { s with
        heap := s.heap ++ [List.replicate s.height (List.replicate s.width (noData.getD 0))]
        bandAddr := s.bandAddr ++ [s.heap.length]
        masks := s.masks ++ [none]
        noData := s.noData ++ [noData]
        dtypes := s.dtypes ++ [dtype] }

/-- Concrete two-band container for C2: band 1 HAS a physical mask
dataset holding 0 (invalid pixel); band 2 has neither mask dataset nor
no-data sentinel. -/
def stC2 : ImgState :=
  { height := 1, width := 1, heap := [[[3]], [[5]]], bandAddr := [0, 1],
    masks := [some [[0]], none], noData := [none, none],
    dtypes := [.uint8, .uint8] }

/-- C2: the claim fails on the code.  Reading masks for bands `[1, 2]`
together, band 2 (no mask, no sentinel) executes `mask.fill(255)` on
the whole 3D array, so band 1's plane comes back all-255 even though
band 1's physical mask dataset holds 0 — band b's plane is not
determined by band b's data alone.  And a single-band (integer)
`read_mask` call raises `NameError` (`band` is an unassigned local in
those branches) instead of returning any mask. -/
theorem claim_C2_code_divergence :
    readMask stC2 (some (.many [1, 2])) none = .ok (.d3 [[[255]], [[255]]]) ∧
    stC2.masks.getD 0 none = some [[0]] ∧
    readMask stC2 (some (.one 2)) none = .error .nameError := by
  refine ⟨by decide, by decide, by decide⟩

/-- Concrete one-band container for C8 with an existing all-zero mask
dataset. -/
def stC8 : ImgState :=
  { height := 1, width := 2, heap := [[[0, 0]]], bandAddr := [0],
    masks := [some [[0, 0]]], noData := [none], dtypes := [.uint8] }

/-- The boolean input for C8: true at position (0,0), false at (0,1). -/
def maskArrC8 : MaskArr := { dtypeName := "bool", arr := .d2 [[true, false]] }

/-- C8: the claim fails on the code for windowed calls.  A windowed
`write_mask` whose input is true at (0,0) succeeds but leaves the mask
dataset completely unchanged (the paint lands on a discarded in-memory
copy of the window), so the true position still holds 0 afterwards; the
windowless call on the same input does paint (0,0) to 255 and leaves
the false position untouched. -/
theorem claim_C8_code_divergence :
    writeMask stC8 maskArrC8 (.one 1) (some ((0, 1), (0, 2))) = .ok stC8 ∧
    stC8.masks = [some [[0, 0]]] ∧
    writeMask stC8 maskArrC8 (.one 1) none =
      .ok { stC8 with masks := [some [[255, 0]]] } := by
  refine ⟨by decide, by decide, by decide⟩

/-- Destructing a successful `Except.map`. -/
theorem except_map_ok {α β : Type} {g : α → β} {x : Except PyErr α} {r : β}
    (h : x.map g = .ok r) : ∃ a, x = .ok a ∧ r = g a := by
  cases x with
  | error e => simp [Except.map] at h
  | ok a => exact ⟨a, rfl, by simpa [Except.map] using h.symm⟩

/-- Concrete two-band container for C3 with heterogeneous band types
(`uint8` and `float32`, promoting to `float32`). -/
def stC3 : ImgState :=
  { height := 1, width := 1, heap := [[[2]], [[7]]], bandAddr := [0, 1],
    masks := [none, none], noData := [none, none],
    dtypes := [.uint8, .float32] }

/-- C3 counterexample: a single-band (integer) `read` returns the
band's own declared storage type (`uint8`), not the promoted type of
all bands (`float32`) — plain dataset slicing keeps the dataset dtype. -/
theorem claim_C3_counterexample :
    readImg stC3 (some (.one 1)) none = .ok (.uint8, .d2 [[2]]) ∧
    readDtypes stC3.dtypes = .float32 ∧
    KeaDataType.uint8 ≠ KeaDataType.float32 := by
  refine ⟨by decide, by decide, by decide⟩

/-- C3 amended: sequence selections (and the default all-bands
selection), with or without a window, return arrays of the promoted
type from the type-promotion resolver; a single-band integer selection
instead returns that band's own declared type. -/
theorem claim_C3_amended :
    (∀ (s : ImgState) (bs : List Nat) (win : Option Win) (r : KeaDataType × NDData Int),
      readImg s (some (.many bs)) win = .ok r → r.1 = readDtypes s.dtypes) ∧
    (∀ (s : ImgState) (win : Option Win) (r : KeaDataType × NDData Int),
      readImg s none win = .ok r → r.1 = readDtypes s.dtypes) ∧
    (∀ (s : ImgState) (b : Nat) (win : Option Win) (r : KeaDataType × NDData Int),
      readImg s (some (.one b)) win = .ok r → r.1 = s.dtypes.getD (b - 1) .uint8) := by
  refine ⟨?_, ?_, ?_⟩
  · intro s bs win r h
    cases win with
    | none =>
        obtain ⟨a, _, rfl⟩ := except_map_ok (by simpa [readImg, selOf] using h)
        rfl
    | some w =>
        obtain ⟨a, _, rfl⟩ := except_map_ok (by simpa [readImg, selOf] using h)
        rfl
  · intro s win r h
    cases win with
    | none =>
        obtain ⟨a, _, rfl⟩ := except_map_ok (by simpa [readImg, selOf] using h)
        rfl
    | some w =>
        obtain ⟨a, _, rfl⟩ := except_map_ok (by simpa [readImg, selOf] using h)
        rfl
  · intro s b win r h
    cases win with
    | none =>
        obtain ⟨a, _, rfl⟩ := except_map_ok (by simpa [readImg, selOf] using h)
        simp [List.getD_eq_getD_get?, List.get?_eq_getElem?]
    | some w =>
        obtain ⟨a, _, rfl⟩ := except_map_ok (by simpa [readImg, selOf] using h)
        simp [List.getD_eq_getD_get?, List.get?_eq_getElem?]

/-- C3 amended, instantiated on `stC3`: an all-bands sequence read
comes back in the promoted type `float32`. -/
theorem claim_C3_amended_witness :
    ((KeaDataType.float32, NDData.d3 [[[2]], [[7]]]) : KeaDataType × NDData Int).1 =
      readDtypes stC3.dtypes :=
  claim_C3_amended.1 stC3 [1, 2] none (.float32, .d3 [[[2]], [[7]]]) (by decide)

/-- Concrete one-band 2x2 container for C6. -/
def stC6 : ImgState :=
  { height := 2, width := 2, heap := [[[0, 0], [0, 0]]], bandAddr := [0],
    masks := [none], noData := [none], dtypes := [.uint8] }

/-- C6 counterexample: a single-band `write` whose data shape
`(2, 2, 2)` does not match the expected `(2, 2)` fails with the
delegated storage error, NOT with a core shape error naming the
expected versus actual band count/dimensionality — the single-band
branch of `write` performs no shape validation at all. -/
theorem claim_C6_counterexample :
    writeImg stC6 (.d3 [[[1, 1], [1, 1]], [[2, 2], [2, 2]]]) (.one 1) none =
      .error .delegated ∧
    PyErr.delegated ≠ PyErr.ndimMsg 3 ∧
    PyErr.delegated ≠ PyErr.countMsg 1 2 := by
  refine ⟨by decide, by decide, by decide⟩

theorem bandDset_err {s : ImgState} {b : Nat} {e : PyErr}
    (h : bandDset s b = .error e) : e = .keyError := by
  unfold bandDset at h
  split at h
  · split at h
    · simp at h
    · injection h with h
      exact h.symm
  · injection h with h
    exact h.symm

theorem maskEntry_err {s : ImgState} {b : Nat} {e : PyErr}
    (h : maskEntry s b = .error e) : e = .keyError := by
  unfold maskEntry at h
  split at h
  · simp at h
  · injection h with h
    exact h.symm

theorem dsetWriteFull_err {α : Type} {target src : List (List α)} {e : PyErr}
    (h : dsetWriteFull target src = .error e) : e = .delegated := by
  unfold dsetWriteFull at h
  split at h
  · split at h
    · simp at h
    · injection h with h; exact h.symm
  · injection h with h; exact h.symm

theorem dsetWriteWin_err {α : Type} {target : List (List α)} {w : Win}
    {src : List (List α)} {e : PyErr}
    (h : dsetWriteWin target w src = .error e) : e = .delegated := by
  unfold dsetWriteWin at h
  split at h
  · simp at h
  · injection h with h; exact h.symm

theorem dsetAssignArr_err {target : Grid} {a : NDData Int} {e : PyErr}
    (h : dsetAssignArr target a = .error e) : e = .delegated := by
  unfold dsetAssignArr at h
  split at h
  · exact dsetWriteFull_err h
  · exact dsetWriteFull_err h
  · injection h with h; exact h.symm

theorem dsetAssignWinArr_err {target : Grid} {w : Win} {a : NDData Int} {e : PyErr}
    (h : dsetAssignWinArr target w a = .error e) : e = .delegated := by
  unfold dsetAssignWinArr at h
  split at h
  · exact dsetWriteWin_err h
  · exact dsetWriteWin_err h
  · injection h with h; exact h.symm

theorem maskAssignFull_err {m : Option MGrid} {bm : List (List Bool)} {e : PyErr}
    (h : maskAssignFull m bm = .error e) : e = .delegated := by
  unfold maskAssignFull at h
  split at h
  · injection h with h; exact h.symm
  · split at h
    · simp at h
    · injection h with h; exact h.symm

theorem maskAssignWin_err {m : Option MGrid} {w : Win} {bm : List (List Bool)}
    {e : PyErr} (h : maskAssignWin m w bm = .error e) : e = .delegated := by
  unfold maskAssignWin at h
  split at h
  · injection h with h; exact h.symm
  · split at h
    · simp at h
    · injection h with h; exact h.symm

/-- The per-band assignment loop of `write` can only fail with
delegated/lookup errors — never with a core shape error. -/
theorem writeLoop_err :
    ∀ (win : Option Win) (l : List (Nat × Grid)) (s : ImgState) (e : PyErr),
      writeLoop win s l = .error e → e = .keyError ∨ e = .delegated := by
  intro win l
  induction l with
  | nil => intro s e h; simp [writeLoop] at h
  | cons p rest ih =>
      intro s e h
      obtain ⟨b, g⟩ := p
      rw [writeLoop] at h
      cases hbd : bandDset s b with
      | error e' =>
          rw [hbd] at h
          injection h with h
          exact Or.inl (h ▸ bandDset_err hbd)
      | ok target =>
          rw [hbd] at h
          cases win with
          | none =>
              dsimp only at h
              cases hasn : dsetWriteFull target g with
              | error e' =>
                  rw [hasn] at h
                  injection h with h
                  exact Or.inr (h ▸ dsetWriteFull_err hasn)
              | ok g' =>
                  rw [hasn] at h
                  exact ih _ e h
          | some w =>
              dsimp only at h
              cases hasn : dsetWriteWin target w g with
              | error e' =>
                  rw [hasn] at h
                  injection h with h
                  exact Or.inr (h ▸ dsetWriteWin_err hasn)
              | ok g' =>
                  rw [hasn] at h
                  exact ih _ e h

/-- The per-band paint loop of `write_mask` can only fail with
delegated/lookup errors. -/
theorem writeMaskLoop_err :
    ∀ (win : Option Win) (l : List (Nat × List (List Bool))) (s : ImgState) (e : PyErr),
      writeMaskLoop win s l = .error e → e = .keyError ∨ e = .delegated := by
  intro win l
  induction l with
  | nil => intro s e h; simp [writeMaskLoop] at h
  | cons p rest ih =>
      intro s e h
      obtain ⟨b, bm⟩ := p
      rw [writeMaskLoop] at h
      cases hme : maskEntry s b with
      | error e' =>
          rw [hme] at h
          injection h with h
          exact Or.inl (h ▸ maskEntry_err hme)
      | ok me =>
          rw [hme] at h
          cases win with
          | none =>
              dsimp only at h
              cases hma : maskAssignFull me bm with
              | error e' =>
                  rw [hma] at h
                  injection h with h
                  exact Or.inr (h ▸ maskAssignFull_err hma)
              | ok m' =>
                  rw [hma] at h
                  exact ih _ e h
          | some w =>
              dsimp only at h
              cases hma : maskAssignWin me w bm with
              | error e' =>
                  rw [hma] at h
                  injection h with h
                  exact Or.inr (h ▸ maskAssignWin_err hma)
              | ok u =>
                  rw [hma] at h
                  exact ih _ e h

/-- C6 amended: for sequence selections `write` validates that the data
is 3-dimensional and that its first axis matches the number of bands,
failing with a type error naming the offending dimensionality or the
expected-versus-actual band count; when those match, any remaining
failure is a delegated storage or lookup error (height/width are not
core-checked).  A single-band integer selection gets NO core shape
validation at all: its only core error is the band-existence check, and
everything else is delegated. -/
theorem claim_C6_amended :
    (∀ (s : ImgState) (bs : List Nat) (win : Option Win) (g : List (List Int)),
      bs.all (fun b => 1 ≤ b && b ≤ s.bandAddr.length) = true →
        writeImg s (.d2 g) (.many bs) win = .error (.ndimMsg 2)) ∧
    (∀ (s : ImgState) (bs : List Nat) (win : Option Win) (gs : List Grid),
      bs.all (fun b => 1 ≤ b && b ≤ s.bandAddr.length) = true →
      gs.length ≠ bs.length →
        writeImg s (.d3 gs) (.many bs) win = .error (.countMsg bs.length gs.length)) ∧
    (∀ (s : ImgState) (bs : List Nat) (win : Option Win) (gs : List Grid) (e : PyErr),
      gs.length = bs.length →
      writeImg s (.d3 gs) (.many bs) win = .error e →
        e = .bandsNotExist ∨ e = .keyError ∨ e = .delegated) ∧
    (∀ (s : ImgState) (data : NDData Int) (b : Nat) (win : Option Win) (e : PyErr),
      writeImg s data (.one b) win = .error e →
        e = .bandNotExist b ∨ e = .keyError ∨ e = .delegated) := by
  refine ⟨?_, ?_, ?_, ?_⟩
  · intro s bs win g h
    simp [writeImg, h]
  · intro s bs win gs h hne
    simp [writeImg, h, hne]
  · intro s bs win gs e hlen h
    simp only [writeImg] at h
    split at h
    · injection h with h
      exact Or.inl h.symm
    · split at h
      · exact absurd hlen (by assumption)
      · rcases writeLoop_err win (bs.zip gs) s e h with h' | h'
        · exact Or.inr (Or.inl h')
        · exact Or.inr (Or.inr h')
  · intro s data b win e h
    simp only [writeImg] at h
    split at h
    · injection h with h
      exact Or.inl h.symm
    · cases hbd : bandDset s b with
      | error e' =>
          rw [hbd] at h
          injection h with h
          exact Or.inr (Or.inl (h ▸ bandDset_err hbd))
      | ok target =>
          rw [hbd] at h
          cases win with
          | none =>
              dsimp only at h
              cases hasn : dsetAssignArr target data with
              | error e' =>
                  rw [hasn] at h
                  injection h with h
                  exact Or.inr (Or.inr (h ▸ dsetAssignArr_err hasn))
              | ok g' =>
                  rw [hasn] at h
                  simp at h
          | some w =>
              dsimp only at h
              cases hasn : dsetAssignWinArr target w data with
              | error e' =>
                  rw [hasn] at h
                  injection h with h
                  exact Or.inr (Or.inr (h ▸ dsetAssignWinArr_err hasn))
              | ok g' =>
                  rw [hasn] at h
                  simp at h

/-- C6 amended, instantiated: a 2D array with a sequence selection
fails with the dimensionality type error. -/
theorem claim_C6_amended_witness :
    writeImg stC6 (.d2 [[0, 0], [0, 0]]) (.many [1]) none = .error (.ndimMsg 2) :=
  claim_C6_amended.1 stC6 [1] none [[0, 0], [0, 0]] (by decide)

/-- C7: a `write_mask` call whose array is not strictly boolean-typed
fails with the boolean-dtype type error before any further validation
or I/O (the check is the first statement; the returned error carries no
new state, so no mask dataset is modified); a boolean-typed array never
triggers that error, for any band selection and window. -/
theorem claim_C7 :
    (∀ (s : ImgState) (d : MaskArr) (bands : BandSel) (win : Option Win),
      d.dtypeName ≠ "bool" →
        writeMask s d bands win = .error (.maskDtype d.dtypeName)) ∧
    (∀ (s : ImgState) (d : MaskArr) (bands : BandSel) (win : Option Win) (got : String),
      d.dtypeName = "bool" →
        writeMask s d bands win ≠ .error (.maskDtype got)) := by
  constructor
  · intro s d bands win h
    simp [writeMask, h]
  · intro s d bands win got hb h
    obtain ⟨dn, arr⟩ := d
    simp only at hb
    subst hb
    cases bands with
    | many bs =>
        unfold writeMask at h
        rw [if_neg (by simp)] at h
        dsimp only at h
        split at h
        · simp at h
        · cases arr with
          | d2 g => simp at h
          | d3 bms =>
              dsimp only at h
              split at h <;>
                first
                | simp at h
                | (rcases writeMaskLoop_err win (bs.zip bms) s _ h with h' | h' <;>
                    simp at h')
    | one b =>
        unfold writeMask at h
        rw [if_neg (by simp)] at h
        dsimp only at h
        split at h
        · simp at h
        · cases hme : maskEntry s b with
          | error e' =>
              rw [hme] at h
              injection h with h
              have := maskEntry_err hme
              simp [this] at h
          | ok me =>
              rw [hme] at h
              cases win with
              | none =>
                  cases arr with
                  | d2 bm =>
                      dsimp only at h
                      cases hma : maskAssignFull me bm with
                      | error e' =>
                          rw [hma] at h
                          injection h with h
                          have := maskAssignFull_err hma
                          simp [this] at h
                      | ok m' =>
                          rw [hma] at h
                          simp at h
                  | d3 _ =>
                      dsimp only at h
                      simp at h
              | some w =>
                  cases arr with
                  | d2 bm =>
                      dsimp only at h
                      cases hma : maskAssignWin me w bm with
                      | error e' =>
                          rw [hma] at h
                          injection h with h
                          have := maskAssignWin_err hma
                          simp [this] at h
                      | ok u =>
                          rw [hma] at h
                          simp at h
                  | d3 _ =>
                      dsimp only at h
                      simp at h

/-- Concrete one-band container for C7's witness. -/
def stC7 : ImgState :=
  { height := 1, width := 1, heap := [[[0]]], bandAddr := [0],
    masks := [some [[0]]], noData := [none], dtypes := [.uint8] }

/-- C7, instantiated: a `uint8`-typed mask write fails with the
boolean-dtype type error naming the received dtype. -/
theorem claim_C7_witness :
    writeMask stC7 { dtypeName := "uint8", arr := .d2 [[true]] } (.one 1) none =
      .error (.maskDtype "uint8") :=
  claim_C7.1 stC7 { dtypeName := "uint8", arr := .d2 [[true]] } (.one 1) none (by decide)

theorem get?_eq_some_getD {α : Type} (l : List α) (i : Nat) (d : α) (h : i < l.length) :
    l.get? i = some (l.getD i d) := by
  rw [List.get?_eq_getElem?, List.getElem?_eq_getElem h, List.getD_eq_getElem l d h]

theorem bandDset_ok (s : ImgState) (b : Nat) (hb1 : 1 ≤ b) (hb2 : b ≤ s.bandAddr.length)
    (ha : s.bandAddr.getD (b - 1) 0 < s.heap.length) :
    bandDset s b = .ok (s.heap.getD (s.bandAddr.getD (b - 1) 0) []) := by
  unfold bandDset
  rw [if_pos ⟨hb1, hb2⟩, get?_eq_some_getD _ _ [] ha]


theorem getD_concat_self {α : Type} (l : List α) (a d : α) :
    (l ++ [a]).getD l.length d = a := by
  rw [List.getD_append_right _ _ _ _ (le_refl _), Nat.sub_self]
  rfl

theorem get?_set_self {α : Type} (l : List α) (i : Nat) (a : α) (h : i < l.length) :
    (l.set i a).get? i = some a := by
  rw [List.get?_eq_getElem?]
  simp [List.getElem?_set, h]

theorem dsetAssignArr_ok (target g : Grid) (hsh : shape2 target = shape2 g)
    (hg : (shape2 g).isSome = true) : dsetAssignArr target (.d2 g) = .ok g := by
  show dsetWriteFull target g = .ok g
  unfold dsetWriteFull
  rw [hsh]
  cases hs : shape2 g with
  | none => rw [hs] at hg; simp at hg
  | some p => simp

/-- A single-band full write on a band whose data area matches the
data's shape succeeds and replaces that area. -/
theorem writeImg_one_full (s : ImgState) (b : Nat) (g : Grid)
    (hb1 : 1 ≤ b) (hb2 : b ≤ s.bandAddr.length)
    (ha : s.bandAddr.getD (b - 1) 0 < s.heap.length)
    (hsh : shape2 (s.heap.getD (s.bandAddr.getD (b - 1) 0) []) = shape2 g)
    (hg : (shape2 g).isSome = true) :
    writeImg s (.d2 g) (.one b) none = .ok (setBandData s b g) := by
  unfold writeImg
  dsimp only
  rw [if_neg (not_not_intro ⟨hb1, hb2⟩), bandDset_ok s b hb1 hb2 ha]
  dsimp only
  rw [dsetAssignArr_ok _ g hsh hg]

/-- A single-band full read returns the band's area and declared type. -/
theorem readImg_one_full (s : ImgState) (b : Nat) (g : Grid)
    (hbd : bandDset s b = .ok g) :
    readImg s (some (.one b)) none = .ok (s.dtypes.getD (b - 1) .uint8, .d2 g) := by
  unfold readImg
  dsimp only [selOf]
  rw [hbd]
  rfl

/-- C5: appending a band with `link=k` aliases band `count+1` to band
`k`'s physical data area: a full write through the new band's index is
then observable by reading band `k`, and symmetrically a write through
band `k` is observable by reading the new band — the two logical bands
share one physical data area.  (The new band inherits band `k`'s
declared type, so both reads return it.) -/
theorem claim_C5 (s : ImgState) (k : Nat) (dt : KeaDataType) (nd : Option Int) (g : Grid)
    (hk1 : 1 ≤ k) (hk2 : k ≤ s.bandAddr.length)
    (haddr : s.bandAddr.getD (k - 1) 0 < s.heap.length)
    (hshape : shape2 (s.heap.getD (s.bandAddr.getD (k - 1) 0) []) =
      some (s.height, s.width))
    (hg : shape2 g = some (s.height, s.width))
    (hdty : s.dtypes.length = s.bandAddr.length) :
    ∃ st1, addImageBand s dt nd (some k) = .ok st1 ∧
      (∃ st2, writeImg st1 (.d2 g) (.one (s.count + 1)) none = .ok st2 ∧
        readImg st2 (some (.one k)) none =
          .ok (s.dtypes.getD (k - 1) .uint8, .d2 g)) ∧
      (∃ st3, writeImg st1 (.d2 g) (.one k) none = .ok st3 ∧
        readImg st3 (some (.one (s.count + 1))) none =
          .ok (s.dtypes.getD (k - 1) .uint8, .d2 g)) := by
  have hc : s.count = s.bandAddr.length := rfl
  have hkm : k - 1 < s.bandAddr.length := by omega
  have hkd : k - 1 < s.dtypes.length := by omega
  refine ⟨{ s with
      bandAddr := s.bandAddr ++ [s.bandAddr.getD (k - 1) 0]
      masks := s.masks ++ [none]
      noData := s.noData ++ [nd]
      dtypes := s.dtypes ++ [s.dtypes.getD (k - 1) .uint8] }, ?_, ?_, ?_⟩
  case _ =>
    unfold addImageBand
    dsimp only
    rw [if_neg (not_not_intro ⟨hk1, hk2⟩)]
  all_goals
    set st1 : ImgState := { s with
      bandAddr := s.bandAddr ++ [s.bandAddr.getD (k - 1) 0]
      masks := s.masks ++ [none]
      noData := s.noData ++ [nd]
      dtypes := s.dtypes ++ [s.dtypes.getD (k - 1) .uint8] } with hst1
  all_goals
    have hlen1 : st1.bandAddr.length = s.bandAddr.length + 1 := by
      show (s.bandAddr ++ [s.bandAddr.getD (k - 1) 0]).length = _
      simp
  all_goals
    have hidx_n : st1.bandAddr.getD (s.count + 1 - 1) 0 = s.bandAddr.getD (k - 1) 0 := by
      show (s.bandAddr ++ [s.bandAddr.getD (k - 1) 0]).getD (s.count + 1 - 1) 0 = _
      have he : s.count + 1 - 1 = s.bandAddr.length := by omega
      rw [he]
      exact getD_concat_self _ _ _
  all_goals
    have hidx_k : st1.bandAddr.getD (k - 1) 0 = s.bandAddr.getD (k - 1) 0 := by
      show (s.bandAddr ++ [s.bandAddr.getD (k - 1) 0]).getD (k - 1) 0 = _
      exact List.getD_append _ _ _ _ hkm
  · -- write through the new band, read through band k
    refine ⟨setBandData st1 (s.count + 1) g, ?_, ?_⟩
    · refine writeImg_one_full st1 (s.count + 1) g (by omega) (by omega) ?_ ?_ ?_
      · rw [hidx_n]
        exact haddr
      · rw [hidx_n]
        show shape2 (s.heap.getD (s.bandAddr.getD (k - 1) 0) []) = shape2 g
        rw [hshape, hg]
      · rw [hg]
        rfl
    · have hbd2 : bandDset (setBandData st1 (s.count + 1) g) k = .ok g := by
        unfold bandDset
        have hlen2 : (setBandData st1 (s.count + 1) g).bandAddr.length =
            s.bandAddr.length + 1 := hlen1
        rw [if_pos ⟨hk1, by omega⟩]
        have hidx2 : (setBandData st1 (s.count + 1) g).bandAddr.getD (k - 1) 0 =
            s.bandAddr.getD (k - 1) 0 := hidx_k
        have hheap2 : (setBandData st1 (s.count + 1) g).heap =
            s.heap.set (s.bandAddr.getD (k - 1) 0) g := by
          show st1.heap.set (st1.bandAddr.getD (s.count + 1 - 1) 0) g = _
          rw [hidx_n]
        rw [hidx2, hheap2, get?_set_self _ _ _ haddr]
      have := readImg_one_full (setBandData st1 (s.count + 1) g) k g hbd2
      rw [this]
      have hdty2 : (setBandData st1 (s.count + 1) g).dtypes.getD (k - 1) .uint8 =
          s.dtypes.getD (k - 1) .uint8 := by
        show (s.dtypes ++ [s.dtypes.getD (k - 1) .uint8]).getD (k - 1) .uint8 = _
        exact List.getD_append _ _ _ _ hkd
      rw [hdty2]
  · -- write through band k, read through the new band
    refine ⟨setBandData st1 k g, ?_, ?_⟩
    · refine writeImg_one_full st1 k g hk1 (by omega) ?_ ?_ ?_
      · rw [hidx_k]
        exact haddr
      · rw [hidx_k]
        show shape2 (s.heap.getD (s.bandAddr.getD (k - 1) 0) []) = shape2 g
        rw [hshape, hg]
      · rw [hg]
        rfl
    · have hbd3 : bandDset (setBandData st1 k g) (s.count + 1) = .ok g := by
        unfold bandDset
        have hlen2 : (setBandData st1 k g).bandAddr.length =
            s.bandAddr.length + 1 := hlen1
        rw [if_pos ⟨by omega, by omega⟩]
        have hidx2 : (setBandData st1 k g).bandAddr.getD (s.count + 1 - 1) 0 =
            s.bandAddr.getD (k - 1) 0 := hidx_n
        have hheap2 : (setBandData st1 k g).heap =
            s.heap.set (s.bandAddr.getD (k - 1) 0) g := by
          show st1.heap.set (st1.bandAddr.getD (k - 1) 0) g = _
          rw [hidx_k]
        rw [hidx2, hheap2, get?_set_self _ _ _ haddr]
      have := readImg_one_full (setBandData st1 k g) (s.count + 1) g hbd3
      rw [this]
      have hdty3 : (setBandData st1 k g).dtypes.getD (s.count + 1 - 1) .uint8 =
          s.dtypes.getD (k - 1) .uint8 := by
        show (s.dtypes ++ [s.dtypes.getD (k - 1) .uint8]).getD (s.count + 1 - 1) .uint8 = _
        have he : s.count + 1 - 1 = s.dtypes.length := by omega
        rw [he]
        exact getD_concat_self _ _ _
      rw [hdty3]

/-- Concrete one-band container for C5's witness. -/
def stC5 : ImgState :=
  { height := 1, width := 1, heap := [[[9]]], bandAddr := [0],
    masks := [none], noData := [none], dtypes := [.uint8] }

/-- C5, instantiated on a one-band container: link band 2 to band 1 and
observe writes through either name from the other. -/
theorem claim_C5_witness :
    ∃ st1, addImageBand stC5 .uint8 none (some 1) = .ok st1 ∧
      (∃ st2, writeImg st1 (.d2 [[4]]) (.one (stC5.count + 1)) none = .ok st2 ∧
        readImg st2 (some (.one 1)) none =
          .ok (stC5.dtypes.getD 0 .uint8, .d2 [[4]])) ∧
      (∃ st3, writeImg st1 (.d2 [[4]]) (.one 1) none = .ok st3 ∧
        readImg st3 (some (.one (stC5.count + 1))) none =
          .ok (stC5.dtypes.getD 0 .uint8, .d2 [[4]])) :=
  claim_C5 stC5 1 .uint8 none [[4]] (by decide) (by decide) (by decide)
    (by decide) (by decide) (by decide)

/-! ## Raster attribute table (RAT) codec

The RAT side of a band: the `ATT` area holds a CHUNKSIZE scalar, the
five-field SIZE summary (row count then per-category column counts),
and per type-category one column-major data area and one header-record
area.  Cell values are modelled exactly by `RatValue` (the canonical
per-category on-disk types widen within a category without changing the
value, so `astype` is the identity on this model).  The four categories
are `RatDataTypes` / `RatFieldTypes` codes 0-3: bool, int, float,
string (modelled from the spec and the source comment "size is rows
then bool, int, float, string columns"). -/

/-- The four RAT type categories, codes 0-3. -/
inductive RatCat where
  | bool | int | float | str
  deriving DecidableEq, Repr, Fintype

/-- `RatDataTypes(i)` / `RatFieldTypes(i)`: the category of a numeric
code, none for a code outside 0-3 (a `ValueError` in Python). -/
def catOfIdx : Nat → Option RatCat
  | 0 => some .bool
  | 1 => some .int
  | 2 => some .float
  | 3 => some .str
  | _ => none

/-- One table cell, tagged with its category's value space. -/
inductive RatValue where
  | vb (b : Bool)
  | vi (z : Int)
  | vf (q : ℚ)
  | vs (s : String)
  deriving DecidableEq, Repr

/-- One positional header record: column name, local index within the
category dataset, usage tag, global index (`COLNUM`) in the authored
table. -/
structure HdrRec where
  name : String
  index : Nat
  usage : String
  colnum : Nat
  deriving DecidableEq, Repr

/-- A band's on-disk ATT area.  A category's data area is stored
column-major (`dset[:, idx]` is the only access the source performs);
`none` means the category's dataset was never created. -/
structure RatStore where
  chunksize : Nat
  sizeArr : List Nat
  dsets : RatCat → Option (List (List RatValue))
  hdrs : RatCat → Option (List HdrRec)

/-- The ATT area of a freshly appended band (`add_image_band` writes
`CHUNKSIZE = [0]` and `SIZE = [0, 0, 0, 0, 0]`, creates no category
datasets). -/
def freshRat : RatStore :=
  { chunksize := 0, sizeArr := [0, 0, 0, 0, 0],
    dsets := fun _ => none, hdrs := fun _ => none }

/-- The RAT side of the container: band count and per-band ATT area. -/
structure KeaState where
  count : Nat
  att : Nat → RatStore

/-- A pandas column: name, element-type category (`NumpyRatTypes` of
the dtype), and cell values. -/
structure PColumn where
  name : String
  cat : RatCat
  values : List RatValue
  deriving DecidableEq, Repr

/-- A pandas DataFrame: ordered named typed columns and its row count
(`dataframe.shape[0]`; theorems assume each column holds `nrows`
cells). -/
structure PDataFrame where
  cols : List PColumn
  nrows : Nat
  deriving DecidableEq, Repr

/-- Python dict lookup on an association list (first binding wins;
duplicate keys do not arise in the states the theorems traverse). -/
def dictGet {β : Type} : List (String × β) → String → Option β
  | [], _ => none
  | (k, v) :: rest, s => if k = s then some v else dictGet rest s

/-- Resolution of `write_rat`'s usage argument: `None` maps every
column to "Generic"; a dict with a key naming a column absent from the
dataframe is an input error; otherwise absent columns are filled with
"Generic". -/
def usageResolve (columns : List String) :
    Option (List (String × String)) → Except PyErr (String → String)
  | none => .ok fun _ => "Generic"
  | some u =>
      if u.all fun p => p.1 ∈ columns then
        .ok fun c => (dictGet u c).getD "Generic"
      else .error .usageCols

/-- The columns of one type category, in dataframe column order
(`datatypes[dvalue].append(col)` over `columns`). -/
def dfParts (df : PDataFrame) (c : RatCat) : List PColumn :=
  df.cols.filter fun col => col.cat = c

/-- Header records for one category's columns: `enumerate(cols)` gives
the local index, `columns.get_loc(col)` (first position of the label)
the global index. -/
def mkHdrs (us : String → String) (columns : List String) :
    Nat → List PColumn → List HdrRec
  | _, [] => []
  | idx, col :: rest =>
      ⟨col.name, idx, us col.name, columns.findIdx fun n => n = col.name⟩ ::
        mkHdrs us columns (idx + 1) rest

/-- Creation of one category's dataset and header records, skipped when
the category has no columns; `create_dataset` on an existing name is a
delegated error (h5py refuses to overwrite). -/
def createCat (us : String → String) (columns : List String) (cols : List PColumn)
    (rs : RatStore) (c : RatCat) : Except PyErr RatStore :=
  if cols.length = 0 then .ok rs
  else if (rs.dsets c).isSome ∨ (rs.hdrs c).isSome then .error .delegated
  else .ok { rs with
    dsets := fun c' => if c' = c then some (cols.map (·.values)) else rs.dsets c'
    hdrs := fun c' => if c' = c then some (mkHdrs us columns 0 cols) else rs.hdrs c' }

/-- The dataset-creation loop of `write_rat` over the four categories
in code order 0-3. -/
def writeRatCats (us : String → String) (columns : List String) (df : PDataFrame)
    (rs : RatStore) : Except PyErr RatStore :=
  match createCat us columns (dfParts df .bool) rs .bool with
  | .error e => .error e
  | .ok rs1 =>
      match createCat us columns (dfParts df .int) rs1 .int with
      | .error e => .error e
      | .ok rs2 =>
          match createCat us columns (dfParts df .float) rs2 .float with
          | .error e => .error e
          | .ok rs3 => createCat us columns (dfParts df .str) rs3 .str

/-- `KeaImageReadWrite.write_rat`: band-existence check, usage
resolution, effective chunk size `min(chunksize, nrows)`, the SIZE
summary (row count then the four per-category column counts, written
in place), then the per-category dataset/header creation loop. -/
def writeRat (st : KeaState) (df : PDataFrame) (band : Nat)
    (usage : Option (List (String × String))) (chunksize : Nat) :
    Except PyErr KeaState :=
  if ¬ (1 ≤ band ∧ band ≤ st.count) then .error (.bandNotExist band)
  else
    match usageResolve (df.cols.map (·.name)) usage with
    | .error e => .error e
    | .ok us =>
        let columns := df.cols.map (·.name)
        let cs := if df.nrows < chunksize then df.nrows else chunksize
        let rs0 := st.att band
        let rs1 : RatStore :=
          { rs0 with
            chunksize := cs
            sizeArr :=
              ((((rs0.sizeArr.set 0 df.nrows).set
                  1 (dfParts df .bool).length).set
                  2 (dfParts df .int).length).set
                  3 (dfParts df .float).length).set
                  4 (dfParts df .str).length }
        match writeRatCats us columns df rs1 with
        | .error e => .error e
        | .ok rs2 => .ok { st with att := fun b => if b = band then rs2 else st.att b }

/-- The in-memory registry `_prep_rat` builds per band: `_rat_lookup`
(column name → hosting dataset content, local index, global index, in
category-major insertion order), `_rat_column_names` (the `names` list,
initialised to the integers `0..M-1` and overwritten at each record's
global index — `Sum.inl` models a never-overwritten integer
placeholder), and `_rat_rows`. -/
structure RatInfo where
  lookup : List (String × (List (List RatValue) × Nat × Nat))
  names : List (Sum Nat String)
  nrows : Nat
  deriving DecidableEq, Repr

/-- The fold of one category's header records into the registry
accumulator: append the lookup entry, set `names[colnum]`.  (Python
raises IndexError for an out-of-range `names[tbl_idx] = ...`, which
`List.set` silently skips; such stores fail at open and never reach a
read, and no theorem traverses one.) -/
def prepFields (ds : List (List RatValue)) :
    List HdrRec →
    List (String × (List (List RatValue) × Nat × Nat)) × List (Sum Nat String) →
    List (String × (List (List RatValue) × Nat × Nat)) × List (Sum Nat String)
  | [], acc => acc
  | rec :: rest, acc =>
      prepFields ds rest
        (acc.1 ++ [(rec.name, (ds, rec.index, rec.colnum))],
         acc.2.set rec.colnum (.inr rec.name))

/-- The category loop of `_prep_rat` over `enumerate(rat_fields)`:
categories with a zero count are skipped; a positive count requires the
category's header and data areas to exist (`KeyError` otherwise); a
count position beyond code 3 is an enum `ValueError`. -/
def prepRatLoop (rs : RatStore) :
    Nat → List Nat →
    List (String × (List (List RatValue) × Nat × Nat)) × List (Sum Nat String) →
    Except PyErr
      (List (String × (List (List RatValue) × Nat × Nat)) × List (Sum Nat String))
  | _, [], acc => .ok acc
  | i, val :: rest, acc =>
      if 0 < val then
        match catOfIdx i with
        | none => .error .valueError
        | some c =>
            match rs.hdrs c, rs.dsets c with
            | some fields, some ds => prepRatLoop rs (i + 1) rest (prepFields ds fields acc)
            | _, _ => .error .keyError
      else prepRatLoop rs (i + 1) rest acc

/-- `KeaImageRead._prep_rat` for one band: read the SIZE summary, build
the registry from the per-category header records. -/
def prepRat (rs : RatStore) : Except PyErr RatInfo :=
  match prepRatLoop rs 0 rs.sizeArr.tail
      ([], (List.range rs.sizeArr.tail.sum).map Sum.inl) with
  | .error e => .error e
  | .ok (lk, nms) => .ok ⟨lk, nms, rs.sizeArr.headD 0⟩

/-- Python slice `l[s:e]` (`e = None` slices to the end; bounds clamp). -/
def pySlice {α : Type} (l : List α) (s : Nat) (e : Option Nat) : List α :=
  match e with
  | none => l.drop s
  | some e => (l.take e).drop s

/-- `dset[row_start:row_end, idx]` on a column-major category dataset:
the column index must exist (h5py IndexError otherwise), the row range
slices with clamping. -/
def sliceCol (ds : List (List RatValue)) (idx rowStart : Nat) (rowEnd : Option Nat) :
    Except PyErr (List RatValue) :=
  match ds.get? idx with
  | none => .error .delegated
  | some col => .ok (pySlice col rowStart rowEnd)

/-- The explicit-columns loop of `read_rat`: for each requested name,
dict access into the registry (`KeyError` if absent), slice the hosting
dataset at the local index, and append `names[tbl_idx]` to the result
column labels (an out-of-range `tbl_idx` is a Python IndexError,
modelled as the delegated error). -/
def readRatCols (info : RatInfo) (rowStart : Nat) (rowEnd : Option Nat) :
    List String →
    Except PyErr (List (String × List RatValue) × List (Sum Nat String))
  | [] => .ok ([], [])
  | c :: rest =>
      match dictGet info.lookup c with
      | none => .error .keyError
      | some (ds, idx, tbl) =>
          match sliceCol ds idx rowStart rowEnd with
          | .error e => .error e
          | .ok v =>
              match info.names.get? tbl with
              | none => .error .delegated
              | some nm =>
                  match readRatCols info rowStart rowEnd rest with
                  | .error e => .error e
                  | .ok (data, cns) => .ok ((c, v) :: data, nm :: cns)

/-- `pandas.DataFrame(data, columns=col_names)`: one column per label
in `col_names`, holding `data[label]` when the label is a string bound
in `data` (an unbound label yields a NaN column, modelled `none`). -/
def mkFrame (data : List (String × List RatValue)) (colNames : List (Sum Nat String)) :
    List (Sum Nat String × Option (List RatValue)) :=
  colNames.map fun cn =>
    (cn, match cn with
         | .inr s0 => dictGet data s0
         | .inl _ => none)

/-- The all-columns loop of `read_rat` (`for col in rat:` over the
registry in insertion order): slice each column's hosting dataset at
its local index. -/
def readAllCols (rowStart : Nat) (rowEnd : Option Nat) :
    List (String × (List (List RatValue) × Nat × Nat)) →
    Except PyErr (List (String × List RatValue))
  | [] => .ok []
  | ent :: rest =>
      match sliceCol ent.2.1 ent.2.2.1 rowStart rowEnd with
      | .error e => .error e
      | .ok v =>
          match readAllCols rowStart rowEnd rest with
          | .error e => .error e
          | .ok data => .ok ((ent.1, v) :: data)

/-- The body of `read_rat` after the band check, on the band's
registry.  `columns = None`: iterate the whole lookup (insertion
order); the result-column list `col_names` is only bound inside the
loop, so an empty lookup leaves it unbound and the final DataFrame
construction raises `NameError`.  Explicit columns: validate the
requested names against the `names` list (the lookup error carries the
valid set), then assemble in requested order. -/
def readRatCore (info : RatInfo) (columns : Option (List String)) (rowStart : Nat)
    (rowEnd : Option Nat) :
    Except PyErr (List (Sum Nat String × Option (List RatValue))) :=
  match columns with
  | none =>
      if info.lookup.isEmpty then .error .nameError
      else
        match readAllCols rowStart rowEnd info.lookup with
        | .error e => .error e
        | .ok data => .ok (mkFrame data info.names)
  | some cols =>
      if ¬ cols.all fun c => info.names.contains (.inr c) then
        .error (.colLookup info.names)
      else
        match readRatCols info rowStart rowEnd cols with
        | .error e => .error e
        | .ok (data, cns) => .ok (mkFrame data cns)

/-- `KeaImageRead.read_rat`: band range check, then the registry for
that band (rebuilt from the store after every mutation — registry and
store agree at every read), then the core above. -/
def readRat (st : KeaState) (band : Nat) (columns : Option (List String))
    (rowStart : Nat) (rowEnd : Option Nat) :
    Except PyErr (List (Sum Nat String × Option (List RatValue))) :=
  if ¬ (1 ≤ band ∧ band ≤ st.count) then .error (.invalidBand band)
  else
    match prepRat (st.att band) with
    | .error e => .error e
    | .ok info => readRatCore info columns rowStart rowEnd

theorem sliceCol_err {ds : List (List RatValue)} {idx rowStart : Nat}
    {rowEnd : Option Nat} {e : PyErr}
    (h : sliceCol ds idx rowStart rowEnd = .error e) : e = .delegated := by
  unfold sliceCol at h
  split at h
  · injection h with h; exact h.symm
  · simp at h

theorem readRatCols_err (info : RatInfo) (rowStart : Nat) (rowEnd : Option Nat) :
    ∀ (cols : List String) (e : PyErr),
      readRatCols info rowStart rowEnd cols = .error e →
        e = .keyError ∨ e = .delegated := by
  intro cols
  induction cols with
  | nil => intro e h; simp [readRatCols] at h
  | cons c rest ih =>
      intro e h
      rw [readRatCols] at h
      cases hdg : dictGet info.lookup c with
      | none =>
          rw [hdg] at h
          injection h with h
          exact Or.inl h.symm
      | some trip =>
        obtain ⟨ds, idx, tbl⟩ := trip
        rw [hdg] at h
        dsimp only at h
        cases hsl : sliceCol ds idx rowStart rowEnd with
        | error e' =>
            rw [hsl] at h
            injection h with h
            exact Or.inr (h ▸ sliceCol_err hsl)
        | ok v =>
            rw [hsl] at h
            dsimp only at h
            cases hnm : info.names.get? tbl with
            | none =>
                rw [hnm] at h
                injection h with h
                exact Or.inr h.symm
            | some nm =>
                rw [hnm] at h
                dsimp only at h
                cases hrec : readRatCols info rowStart rowEnd rest with
                | error e' =>
                    rw [hrec] at h
                    injection h with h
                    exact h ▸ ih e' hrec
                | ok p =>
                    rw [hrec] at h
                    simp at h

/-- C9: `read_rat` raises the band range error (carrying the band
number) for any band outside 1..count; for a valid band whose registry
exists, a requested column list containing a name outside the known
column-name list raises the lookup error carrying that valid list; and
a request whose names all belong to the known list raises neither of
those two errors. -/
theorem claim_C9 :
    (∀ (st : KeaState) (band : Nat) (columns : Option (List String))
        (rowStart : Nat) (rowEnd : Option Nat),
      ¬ (1 ≤ band ∧ band ≤ st.count) →
        readRat st band columns rowStart rowEnd = .error (.invalidBand band)) ∧
    (∀ (st : KeaState) (band : Nat) (cols : List String)
        (rowStart : Nat) (rowEnd : Option Nat) (info : RatInfo),
      1 ≤ band ∧ band ≤ st.count →
      prepRat (st.att band) = .ok info →
      ¬ (cols.all fun c => info.names.contains (.inr c)) →
        readRat st band (some cols) rowStart rowEnd = .error (.colLookup info.names)) ∧
    (∀ (st : KeaState) (band : Nat) (cols : List String)
        (rowStart : Nat) (rowEnd : Option Nat) (info : RatInfo),
      1 ≤ band ∧ band ≤ st.count →
      prepRat (st.att band) = .ok info →
      (cols.all fun c => info.names.contains (.inr c)) = true →
        readRat st band (some cols) rowStart rowEnd ≠ .error (.invalidBand band) ∧
        ∀ valid, readRat st band (some cols) rowStart rowEnd ≠
          .error (.colLookup valid)) := by
  refine ⟨?_, ?_, ?_⟩
  · intro st band columns rowStart rowEnd h
    unfold readRat
    rw [if_pos h]
  · intro st band cols rowStart rowEnd info hband hprep hcols
    unfold readRat
    rw [if_neg (not_not_intro hband), hprep]
    show readRatCore info (some cols) rowStart rowEnd = _
    unfold readRatCore
    dsimp only
    rw [if_pos hcols]
  · intro st band cols rowStart rowEnd info hband hprep hcols
    have hbase : readRat st band (some cols) rowStart rowEnd =
        readRatCore info (some cols) rowStart rowEnd := by
      unfold readRat
      rw [if_neg (not_not_intro hband), hprep]
    have hcore : ∀ e, readRatCore info (some cols) rowStart rowEnd = .error e →
        e = .keyError ∨ e = .delegated := by
      intro e h
      unfold readRatCore at h
      dsimp only at h
      rw [if_neg (not_not_intro hcols)] at h
      cases hrc : readRatCols info rowStart rowEnd cols with
      | error e' =>
          rw [hrc] at h
          injection h with h
          exact h ▸ readRatCols_err info rowStart rowEnd cols e' hrc
      | ok p =>
          rw [hrc] at h
          simp at h
    constructor
    · intro h
      rw [hbase] at h
      rcases hcore _ h with h' | h' <;> simp at h'
    · intro valid h
      rw [hbase] at h
      rcases hcore _ h with h' | h' <;> simp at h'

/-- A one-band container whose band 1 has an empty (freshly created)
RAT area. -/
def stC9 : KeaState := ⟨1, fun _ => freshRat⟩

/-- C9, instantiated: band 5 of a one-band container raises the range
error carrying the band number. -/
theorem claim_C9_witness :
    readRat stC9 5 none 0 none = .error (.invalidBand 5) :=
  claim_C9.1 stC9 5 none 0 none (by decide)

/-- C10: on a valid band whose RAT has zero columns (an empty registry
lookup, as a freshly appended band has), `read_rat` with
`columns=None` raises the unbound-local error (`col_names` is only
assigned inside the loop over the table's columns) instead of
returning an empty table; a normal return implies at least one
column. -/
theorem claim_C10 (st : KeaState) (band rowStart : Nat) (rowEnd : Option Nat)
    (info : RatInfo)
    (hband : 1 ≤ band ∧ band ≤ st.count)
    (hprep : prepRat (st.att band) = .ok info) :
    (info.lookup = [] → readRat st band none rowStart rowEnd = .error .nameError) ∧
    (∀ t, readRat st band none rowStart rowEnd = .ok t → info.lookup ≠ []) := by
  have hbase : readRat st band none rowStart rowEnd =
      readRatCore info none rowStart rowEnd := by
    unfold readRat
    rw [if_neg (not_not_intro hband), hprep]
  constructor
  · intro hemp
    rw [hbase]
    unfold readRatCore
    dsimp only
    rw [if_pos (by simp [hemp])]
  · intro t hok hemp
    rw [hbase] at hok
    unfold readRatCore at hok
    dsimp only at hok
    rw [if_pos (by simp [hemp])] at hok
    simp at hok

/-- C10, instantiated: a fresh band's empty RAT makes
`read_rat(columns=None)` raise the unbound-local error. -/
theorem claim_C10_witness :
    readRat stC9 1 none 0 none = .error .nameError := by
  have h := claim_C10 stC9 1 0 none ⟨[], [], 0⟩ (by decide) (by decide)
  exact h.1 rfl

theorem get?_set_ne {α : Type} (l : List α) (i j : Nat) (a : α) (h : i ≠ j) :
    (l.set i a).get? j = l.get? j := by
  rw [List.get?_eq_getElem?, List.get?_eq_getElem?]
  simp [List.getElem?_set, h]

theorem lt_of_get?_eq_some {α : Type} {l : List α} {n : Nat} {a : α}
    (h : l.get? n = some a) : n < l.length := by
  by_contra hlt
  push_neg at hlt
  rw [List.get?_eq_none.mpr hlt] at h
  simp at h

/-- The four category partitions cover the dataframe's columns. -/
theorem parts_length_sum (l : List PColumn) :
    (l.filter fun col => col.cat = RatCat.bool).length +
      (l.filter fun col => col.cat = RatCat.int).length +
      ((l.filter fun col => col.cat = RatCat.float).length +
        (l.filter fun col => col.cat = RatCat.str).length) = l.length := by
  induction l with
  | nil => simp
  | cons c t ih =>
      cases hc : c.cat <;> simp [List.filter_cons, hc] <;> omega

theorem get?_findIdx_self (l : List String) (a : String) (h : a ∈ l) :
    l.get? (l.findIdx fun n => n = a) = some a := by
  induction l with
  | nil => cases h
  | cons b t ih =>
      rw [List.findIdx_cons]
      by_cases hb : b = a
      · simp [hb]
      · rw [show (decide (b = a)) = false from decide_eq_false hb, cond_false]
        rcases List.mem_cons.mp h with rfl | hmem
        · exact absurd rfl hb
        · simpa using ih hmem

theorem nodup_findIdx_eq (l : List String) (hnd : l.Nodup) :
    ∀ (j : Nat) (a : String), l.get? j = some a → (l.findIdx fun n => n = a) = j := by
  induction l with
  | nil => intro j a h; simp at h
  | cons b t ih =>
      intro j a h
      rw [List.findIdx_cons]
      cases j with
      | zero =>
          simp at h
          simp [h]
      | succ j =>
          simp only [List.get?_cons_succ] at h
          have hmem : a ∈ t := List.get?_mem h
          have hba : b ≠ a := by
            rintro rfl
            exact (List.nodup_cons.mp hnd).1 hmem
          rw [show (decide (b = a)) = false from decide_eq_false hba, cond_false,
            ih (List.nodup_cons.mp hnd).2 j a h]

/-- Ordered header-record names are the partition's column names. -/
theorem mkHdrs_names (us : String → String) (columns : List String) :
    ∀ (start : Nat) (cols : List PColumn),
      (mkHdrs us columns start cols).map (·.name) = cols.map (·.name) := by
  intro start cols
  induction cols generalizing start with
  | nil => rfl
  | cons c t ih => simp [mkHdrs, ih]

/-- Every produced header record's global index points back at its own
column name. -/
theorem mkHdrs_good (us : String → String) (columns : List String) :
    ∀ (start : Nat) (cols : List PColumn),
      (∀ col ∈ cols, col.name ∈ columns) →
      ∀ rec ∈ mkHdrs us columns start cols, columns.get? rec.colnum = some rec.name := by
  intro start cols
  induction cols generalizing start with
  | nil => intro _ rec hrec; cases hrec
  | cons c t ih =>
      intro hmem rec hrec
      rcases List.mem_cons.mp hrec with rfl | hrec'
      · exact get?_findIdx_self columns c.name (hmem c (List.mem_cons_self c t))
      · exact ih (start + 1) (fun col hcol => hmem col (List.mem_cons_of_mem c hcol))
          rec hrec'

/-- Every partition column yields a header record whose global index is
its first position in the authored column list. -/
theorem mkHdrs_exists (us : String → String) (columns : List String) :
    ∀ (start : Nat) (cols : List PColumn) (col : PColumn), col ∈ cols →
      ∃ rec ∈ mkHdrs us columns start cols, rec.name = col.name ∧
        rec.colnum = (columns.findIdx fun n => n = col.name) := by
  intro start cols
  induction cols generalizing start with
  | nil => intro col h; cases h
  | cons c t ih =>
      intro col h
      rcases List.mem_cons.mp h with rfl | hmem
      · exact ⟨_, List.mem_cons_self _ _, rfl, rfl⟩
      · obtain ⟨rec, hrec, hn, hc⟩ := ih (start + 1) col hmem
        exact ⟨rec, List.mem_cons_of_mem _ hrec, hn, hc⟩

/-- The `names[colnum] = name` assignments of one record batch. -/
def setNames (ns : List (Sum Nat String)) (fields : List HdrRec) :
    List (Sum Nat String) :=
  fields.foldl (fun a rec => a.set rec.colnum (.inr rec.name)) ns

theorem setNames_append (ns : List (Sum Nat String)) (f1 f2 : List HdrRec) :
    setNames ns (f1 ++ f2) = setNames (setNames ns f1) f2 :=
  List.foldl_append _ _ _ _

theorem setNames_length : ∀ (fields : List HdrRec) (ns : List (Sum Nat String)),
    (setNames ns fields).length = ns.length := by
  intro fields
  induction fields with
  | nil => intro ns; rfl
  | cons rec t ih =>
      intro ns
      show (setNames (ns.set rec.colnum (.inr rec.name)) t).length = _
      rw [ih, List.length_set]

/-- Positions holding their column's name keep holding it through any
batch of good records. -/
theorem setNames_preserve (columns : List String) :
    ∀ (fields : List HdrRec) (ns : List (Sum Nat String)) (j : Nat),
      (∀ rec ∈ fields, columns.get? rec.colnum = some rec.name) →
      ns.length = columns.length →
      ns.get? j = (columns.get? j).map Sum.inr →
      (setNames ns fields).get? j = (columns.get? j).map Sum.inr := by
  intro fields
  induction fields with
  | nil => intro ns j _ _ h; exact h
  | cons rec t ih =>
      intro ns j hgood hlen hj
      show (setNames (ns.set rec.colnum (.inr rec.name)) t).get? j = _
      refine ih _ j (fun r hr => hgood r (List.mem_cons_of_mem _ hr))
        (by rw [List.length_set]; exact hlen) ?_
      by_cases hcj : rec.colnum = j
      · subst hcj
        have hcn := hgood rec (List.mem_cons_self _ _)
        have hlt : rec.colnum < ns.length := by
          rw [hlen]
          exact lt_of_get?_eq_some hcn
        rw [get?_set_self _ _ _ hlt, hcn]
        rfl
      · rw [get?_set_ne _ _ _ _ hcj]
        exact hj

/-- After a batch containing a good record for position `j`, position
`j` holds its column's name. -/
theorem setNames_cover (columns : List String) :
    ∀ (fields : List HdrRec) (ns : List (Sum Nat String)) (r : HdrRec),
      (∀ rec ∈ fields, columns.get? rec.colnum = some rec.name) →
      ns.length = columns.length →
      r ∈ fields →
      (setNames ns fields).get? r.colnum = (columns.get? r.colnum).map Sum.inr := by
  intro fields
  induction fields with
  | nil => intro ns r _ _ h; cases h
  | cons rec t ih =>
      intro ns r hgood hlen hr
      rcases List.mem_cons.mp hr with rfl | hmem
      · show (setNames (ns.set r.colnum (.inr r.name)) t).get? r.colnum = _
        refine setNames_preserve columns t _ r.colnum
          (fun q hq => hgood q (List.mem_cons_of_mem _ hq))
          (by rw [List.length_set]; exact hlen) ?_
        have hcn := hgood r (List.mem_cons_self _ _)
        have hlt : r.colnum < ns.length := by
          rw [hlen]
          exact lt_of_get?_eq_some hcn
        rw [get?_set_self _ _ _ hlt, hcn]
        rfl
      · exact ih _ r (fun q hq => hgood q (List.mem_cons_of_mem _ hq))
          (by rw [List.length_set]; exact hlen) hmem

theorem prepFields_eq (ds : List (List RatValue)) :
    ∀ (fields : List HdrRec)
      (acc : List (String × (List (List RatValue) × Nat × Nat)) × List (Sum Nat String)),
      prepFields ds fields acc =
        (acc.1 ++ (fields.map fun rec => (rec.name, (ds, rec.index, rec.colnum))),
         setNames acc.2 fields) := by
  intro fields
  induction fields with
  | nil => intro acc; simp [prepFields, setNames]
  | cons rec t ih =>
      intro acc
      show prepFields ds t _ = _
      rw [ih]
      simp [setNames, List.foldl_cons]

/-- Reconstruction of the authored column order: starting from integer
placeholders, a batch of good records covering every position rebuilds
exactly the authored name list. -/
theorem names_reconstruct (columns : List String) (combined : List HdrRec)
    (hgood : ∀ rec ∈ combined, columns.get? rec.colnum = some rec.name)
    (hcover : ∀ j, j < columns.length → ∃ r ∈ combined, r.colnum = j) :
    setNames ((List.range columns.length).map Sum.inl) combined =
      columns.map Sum.inr := by
  have hlen0 : ((List.range columns.length).map (Sum.inl : Nat → Sum Nat String)).length =
      columns.length := by simp
  apply List.ext_get?
  intro j
  by_cases hj : j < columns.length
  · obtain ⟨r, hr, hrc⟩ := hcover j hj
    have hc := setNames_cover columns combined _ r hgood hlen0 hr
    rw [hrc] at hc
    rw [hc, List.get?_eq_getElem?, List.get?_eq_getElem?, List.getElem?_map]
  · have h1 : (setNames ((List.range columns.length).map Sum.inl) combined).get? j =
        none := by
      apply List.get?_eq_none.mpr
      rw [setNames_length, hlen0]
      omega
    have h2 : (columns.map (Sum.inr : String → Sum Nat String)).get? j = none := by
      apply List.get?_eq_none.mpr
      simp
      omega
    rw [h1, h2]

/-- The registry entries one category contributes. -/
def catEntries (ds : List (List RatValue)) (hdrs : List HdrRec) :
    List (String × (List (List RatValue) × Nat × Nat)) :=
  hdrs.map fun rec => (rec.name, (ds, rec.index, rec.colnum))

theorem dictGet_append_of_none {β : Type} (l₁ l₂ : List (String × β)) (s : String)
    (h : dictGet l₁ s = none) : dictGet (l₁ ++ l₂) s = dictGet l₂ s := by
  induction l₁ with
  | nil => rfl
  | cons p t ih =>
      rw [List.cons_append, dictGet]
      rw [dictGet] at h
      split at h
      · simp at h
      · rw [if_neg (by assumption)]
        exact ih h

theorem dictGet_append_of_some {β : Type} (l₁ l₂ : List (String × β)) (s : String)
    (v : β) (h : dictGet l₁ s = some v) : dictGet (l₁ ++ l₂) s = some v := by
  induction l₁ with
  | nil => simp [dictGet] at h
  | cons p t ih =>
      rw [List.cons_append, dictGet]
      rw [dictGet] at h
      split at h
      · rw [if_pos (by assumption)]
        exact h
      · rw [if_neg (by assumption)]
        exact ih h

theorem dictGet_eq_none {β : Type} (l : List (String × β)) (s : String)
    (h : s ∉ l.map Prod.fst) : dictGet l s = none := by
  induction l with
  | nil => rfl
  | cons p t ih =>
      rw [dictGet]
      rw [List.map_cons, List.mem_cons] at h
      push_neg at h
      rw [if_neg (Ne.symm h.1)]
      exact ih h.2

/-- Registry lookup within one category's entries: a partition column
at local position `jloc` resolves to (its category's dataset, local
index `start + jloc`, its first position in the authored columns). -/
theorem dictGet_catEntries (us : String → String) (columns : List String)
    (ds : List (List RatValue)) :
    ∀ (cols : List PColumn) (start jloc : Nat) (col : PColumn),
      cols.get? jloc = some col →
      (cols.map (·.name)).Nodup →
      dictGet (catEntries ds (mkHdrs us columns start cols)) col.name =
        some (ds, start + jloc, columns.findIdx fun n => n = col.name) := by
  intro cols
  induction cols with
  | nil => intro start jloc col h; simp at h
  | cons c t ih =>
      intro start jloc col h hnd
      cases jloc with
      | zero =>
          simp only [List.get?_cons_zero, Option.some_inj] at h
          subst h
          simp only [catEntries, mkHdrs, List.map_cons]
          rw [dictGet, if_pos rfl, Nat.add_zero]
      | succ j =>
          simp only [List.get?_cons_succ] at h
          have hmem : col ∈ t := List.get?_mem h
          have hne : c.name ≠ col.name := by
            intro heq
            have hin : col.name ∈ t.map fun x => x.name :=
              List.mem_map_of_mem (fun x => x.name) hmem
            rw [← heq] at hin
            exact (List.nodup_cons.mp hnd).1 hin
          have hrec := ih (start + 1) j col h (List.nodup_cons.mp hnd).2
          simp only [catEntries, mkHdrs, List.map_cons] at hrec ⊢
          rw [dictGet, if_neg hne, hrec]
          have harith : start + 1 + j = start + (j + 1) := by omega
          rw [harith]

theorem createCat_char (us : String → String) (columns : List String)
    (cols : List PColumn) (rs : RatStore) (c : RatCat)
    (hd : rs.dsets c = none) (hh : rs.hdrs c = none) :
    ∃ rs', createCat us columns cols rs c = .ok rs' ∧
      rs'.chunksize = rs.chunksize ∧ rs'.sizeArr = rs.sizeArr ∧
      (∀ c', rs'.dsets c' =
        if c' = c then (if cols = [] then none else some (cols.map (·.values)))
        else rs.dsets c') ∧
      (∀ c', rs'.hdrs c' =
        if c' = c then (if cols = [] then none else some (mkHdrs us columns 0 cols))
        else rs.hdrs c') := by
  by_cases hemp : cols = []
  · refine ⟨rs, ?_, rfl, rfl, ?_, ?_⟩
    · unfold createCat
      rw [if_pos (by simp [hemp])]
    · intro c'
      by_cases h' : c' = c <;> simp [h', hemp, hd]
    · intro c'
      by_cases h' : c' = c <;> simp [h', hemp, hh]
  · refine ⟨{ rs with
      dsets := fun c' => if c' = c then some (cols.map (·.values)) else rs.dsets c'
      hdrs := fun c' => if c' = c then some (mkHdrs us columns 0 cols)
        else rs.hdrs c' }, ?_, rfl, rfl, ?_, ?_⟩
    · unfold createCat
      rw [if_neg (by simp [hemp]), if_neg (by simp [hd, hh])]
    · intro c'
      by_cases h' : c' = c <;> simp [h', hemp]
    · intro c'
      by_cases h' : c' = c <;> simp [h', hemp]

theorem writeRatCats_char (us : String → String) (columns : List String)
    (df : PDataFrame) (rs1 : RatStore)
    (hfd : ∀ c, rs1.dsets c = none) (hfh : ∀ c, rs1.hdrs c = none) :
    ∃ rs2, writeRatCats us columns df rs1 = .ok rs2 ∧
      rs2.chunksize = rs1.chunksize ∧ rs2.sizeArr = rs1.sizeArr ∧
      (∀ c, rs2.dsets c =
        if dfParts df c = [] then none else some ((dfParts df c).map (·.values))) ∧
      (∀ c, rs2.hdrs c =
        if dfParts df c = [] then none
        else some (mkHdrs us columns 0 (dfParts df c))) := by
  obtain ⟨r1, e1, hc1, hs1, hd1, hh1⟩ :=
    createCat_char us columns (dfParts df .bool) rs1 .bool (hfd .bool) (hfh .bool)
  obtain ⟨r2, e2, hc2, hs2, hd2, hh2⟩ :=
    createCat_char us columns (dfParts df .int) r1 .int
      (by rw [hd1]; simp [hfd]) (by rw [hh1]; simp [hfh])
  obtain ⟨r3, e3, hc3, hs3, hd3, hh3⟩ :=
    createCat_char us columns (dfParts df .float) r2 .float
      (by rw [hd2]; simp; rw [hd1]; simp [hfd])
      (by rw [hh2]; simp; rw [hh1]; simp [hfh])
  obtain ⟨r4, e4, hc4, hs4, hd4, hh4⟩ :=
    createCat_char us columns (dfParts df .str) r3 .str
      (by rw [hd3]; simp; rw [hd2]; simp; rw [hd1]; simp [hfd])
      (by rw [hh3]; simp; rw [hh2]; simp; rw [hh1]; simp [hfh])
  refine ⟨r4, ?_, by rw [hc4, hc3, hc2, hc1], by rw [hs4, hs3, hs2, hs1], ?_, ?_⟩
  · unfold writeRatCats
    rw [e1]
    dsimp only
    rw [e2]
    dsimp only
    rw [e3]
    dsimp only
    exact e4
  · intro c
    cases c <;> simp [hd4, hd3, hd2, hd1, hfd]
  · intro c
    cases c <;> simp [hh4, hh3, hh2, hh1, hfh]

theorem writeRat_char (st : KeaState) (df : PDataFrame) (band cs : Nat)
    (hband : 1 ≤ band ∧ band ≤ st.count)
    (hfd : ∀ c, (st.att band).dsets c = none)
    (hfh : ∀ c, (st.att band).hdrs c = none)
    (hsz : (st.att band).sizeArr = [0, 0, 0, 0, 0]) :
    ∃ rs2, writeRat st df band none cs =
        .ok { st with att := fun b => if b = band then rs2 else st.att b } ∧
      rs2.sizeArr =
        [df.nrows, (dfParts df .bool).length, (dfParts df .int).length,
         (dfParts df .float).length, (dfParts df .str).length] ∧
      (∀ c, rs2.dsets c =
        if dfParts df c = [] then none else some ((dfParts df c).map (·.values))) ∧
      (∀ c, rs2.hdrs c =
        if dfParts df c = [] then none
        else some (mkHdrs (fun _ => "Generic") (df.cols.map (·.name)) 0
          (dfParts df c))) := by
  obtain ⟨rs2, e2, hc2, hs2, hd2, hh2⟩ :=
    writeRatCats_char (fun _ => "Generic") (df.cols.map (·.name)) df
      { st.att band with
        chunksize := if df.nrows < cs then df.nrows else cs
        sizeArr := (((((st.att band).sizeArr.set 0 df.nrows).set
            1 (dfParts df .bool).length).set
            2 (dfParts df .int).length).set
            3 (dfParts df .float).length).set
            4 (dfParts df .str).length }
      (fun c => hfd c) (fun c => hfh c)
  refine ⟨rs2, ?_, ?_, hd2, hh2⟩
  · unfold writeRat
    rw [if_neg (not_not_intro hband)]
    dsimp only [usageResolve]
    rw [e2]
  · rw [hs2]
    show (((((st.att band).sizeArr.set 0 df.nrows).set
        1 (dfParts df .bool).length).set
        2 (dfParts df .int).length).set
        3 (dfParts df .float).length).set
        4 (dfParts df .str).length = _
    rw [hsz]
    rfl

theorem prepLoop_step (rs2 : RatStore) (df : PDataFrame) (us : String → String)
    (columns : List String) (c : RatCat) (i : Nat) (rest : List Nat)
    (acc : List (String × (List (List RatValue) × Nat × Nat)) × List (Sum Nat String))
    (hcat : catOfIdx i = some c)
    (hds : rs2.dsets c =
      if dfParts df c = [] then none else some ((dfParts df c).map (·.values)))
    (hhd : rs2.hdrs c =
      if dfParts df c = [] then none else some (mkHdrs us columns 0 (dfParts df c))) :
    prepRatLoop rs2 i ((dfParts df c).length :: rest) acc =
      prepRatLoop rs2 (i + 1) rest
        (prepFields ((dfParts df c).map (·.values))
          (mkHdrs us columns 0 (dfParts df c)) acc) := by
  rw [prepRatLoop]
  by_cases hemp : dfParts df c = []
  · rw [hemp]
    rw [if_neg (by simp)]
    rfl
  · have hpos : 0 < (dfParts df c).length := List.length_pos.mpr hemp
    have hds' : rs2.dsets c = some ((dfParts df c).map (·.values)) := by
      rw [hds, if_neg hemp]
    have hhd' : rs2.hdrs c = some (mkHdrs us columns 0 (dfParts df c)) := by
      rw [hhd, if_neg hemp]
    rw [if_pos hpos, hcat]
    dsimp only
    rw [hhd', hds']

theorem prepRat_char (rs2 : RatStore) (df : PDataFrame) (us : String → String)
    (columns : List String)
    (hsz : rs2.sizeArr = [df.nrows, (dfParts df .bool).length,
      (dfParts df .int).length, (dfParts df .float).length, (dfParts df .str).length])
    (hds : ∀ c, rs2.dsets c =
      if dfParts df c = [] then none else some ((dfParts df c).map (·.values)))
    (hhd : ∀ c, rs2.hdrs c =
      if dfParts df c = [] then none
      else some (mkHdrs us columns 0 (dfParts df c))) :
    prepRat rs2 = .ok
      ⟨catEntries ((dfParts df .bool).map (·.values))
          (mkHdrs us columns 0 (dfParts df .bool)) ++
        (catEntries ((dfParts df .int).map (·.values))
          (mkHdrs us columns 0 (dfParts df .int)) ++
         (catEntries ((dfParts df .float).map (·.values))
           (mkHdrs us columns 0 (dfParts df .float)) ++
          catEntries ((dfParts df .str).map (·.values))
            (mkHdrs us columns 0 (dfParts df .str)))),
       setNames ((List.range ((dfParts df .bool).length +
           ((dfParts df .int).length + ((dfParts df .float).length +
             ((dfParts df .str).length + 0))))).map Sum.inl)
         (mkHdrs us columns 0 (dfParts df .bool) ++
          (mkHdrs us columns 0 (dfParts df .int) ++
           (mkHdrs us columns 0 (dfParts df .float) ++
            mkHdrs us columns 0 (dfParts df .str)))),
       df.nrows⟩ := by
  unfold prepRat
  rw [hsz]
  dsimp only [List.tail_cons, List.sum_cons, List.sum_nil, List.headD]
  rw [prepLoop_step rs2 df us columns .bool 0 _ _ rfl (hds .bool) (hhd .bool),
    prepLoop_step rs2 df us columns .int 1 _ _ rfl (hds .int) (hhd .int),
    prepLoop_step rs2 df us columns .float 2 _ _ rfl (hds .float) (hhd .float),
    prepLoop_step rs2 df us columns .str 3 _ _ rfl (hds .str) (hhd .str)]
  rw [prepRatLoop]
  rw [prepFields_eq, prepFields_eq, prepFields_eq, prepFields_eq]
  dsimp only
  rw [setNames_append, setNames_append, setNames_append]
  simp [catEntries, List.append_assoc]

/-- The partition's column names are nodup whenever the dataframe's
are. -/
theorem parts_names_nodup (df : PDataFrame) (c : RatCat)
    (hnodup : (df.cols.map (·.name)).Nodup) :
    ((dfParts df c).map (·.name)).Nodup :=
  hnodup.sublist ((List.filter_sublist df.cols).map _)

/-- After the four category batches, the registry's `names` list is
exactly the authored column-name list. -/
theorem names_final (us : String → String) (df : PDataFrame)
    (hnodup : (df.cols.map (·.name)).Nodup) :
    setNames ((List.range ((dfParts df .bool).length +
        ((dfParts df .int).length + ((dfParts df .float).length +
          ((dfParts df .str).length + 0))))).map Sum.inl)
      (mkHdrs us (df.cols.map (·.name)) 0 (dfParts df .bool) ++
       (mkHdrs us (df.cols.map (·.name)) 0 (dfParts df .int) ++
        (mkHdrs us (df.cols.map (·.name)) 0 (dfParts df .float) ++
         mkHdrs us (df.cols.map (·.name)) 0 (dfParts df .str)))) =
      (df.cols.map (·.name)).map Sum.inr := by
  have hM : (dfParts df .bool).length +
      ((dfParts df .int).length + ((dfParts df .float).length +
        ((dfParts df .str).length + 0))) = (df.cols.map (·.name)).length := by
    have := parts_length_sum df.cols
    simp only [dfParts] at *
    simp only [List.length_map]
    omega
  rw [hM]
  apply names_reconstruct
  · intro rec hrec
    have hsub : ∀ c : RatCat, ∀ r ∈ mkHdrs us (df.cols.map (·.name)) 0 (dfParts df c),
        (df.cols.map (·.name)).get? r.colnum = some r.name := by
      intro c r hr
      exact mkHdrs_good us (df.cols.map (·.name)) 0 (dfParts df c)
        (fun col hcol => List.mem_map_of_mem _ (List.mem_of_mem_filter hcol)) r hr
    simp only [List.mem_append] at hrec
    rcases hrec with h | h | h | h
    · exact hsub .bool rec h
    · exact hsub .int rec h
    · exact hsub .float rec h
    · exact hsub .str rec h
  · intro j hj
    have hj' : j < df.cols.length := by simpa using hj
    obtain ⟨col, hcol⟩ : ∃ col, df.cols.get? j = some col := by
      rw [List.get?_eq_getElem?, List.getElem?_eq_getElem hj']
      exact ⟨_, rfl⟩
    have hcolmem : col ∈ df.cols := List.get?_mem hcol
    have hpart : col ∈ dfParts df col.cat :=
      List.mem_filter.mpr ⟨hcolmem, by simp⟩
    obtain ⟨rec, hrecmem, hrname, hrcol⟩ :=
      mkHdrs_exists us (df.cols.map (·.name)) 0 (dfParts df col.cat) col hpart
    refine ⟨rec, ?_, ?_⟩
    · simp only [List.mem_append]
      cases hcat : col.cat <;> rw [hcat] at hrecmem <;> tauto
    · have hnj : (df.cols.map (·.name)).get? j = some col.name := by
        rw [List.get?_eq_getElem?, List.getElem?_map]
        rw [List.get?_eq_getElem?] at hcol
        rw [hcol]
        rfl
      rw [hrcol]
      exact nodup_findIdx_eq _ hnodup j col.name hnj

theorem catEntries_keys (ds : List (List RatValue)) (hdrs : List HdrRec) :
    (catEntries ds hdrs).map Prod.fst = hdrs.map (·.name) := by
  simp [catEntries]

/-- A column's name never occurs among the names of a different
category's partition. -/
theorem name_not_in_parts (df : PDataFrame)
    (hnodup : (df.cols.map (·.name)).Nodup) (col : PColumn)
    (hcol : col ∈ df.cols) (c' : RatCat) (hne : col.cat ≠ c') :
    col.name ∉ (dfParts df c').map (·.name) := by
  intro hmem
  obtain ⟨col', hcol', heq⟩ := List.mem_map.mp hmem
  have hmemdf : col' ∈ df.cols := List.mem_of_mem_filter hcol'
  have hcc : col' = col := List.inj_on_of_nodup_map hnodup hmemdf hcol heq
  have hcat : col'.cat = c' := by simpa using (List.mem_filter.mp hcol').2
  rw [hcc] at hcat
  exact hne hcat

/-- The values of the dataframe column named `s` (the first such
column, as `pandas` label lookup does). -/
def dfValues (df : PDataFrame) (s : String) : List RatValue :=
  match df.cols.find? fun col => col.name = s with
  | some col => col.values
  | none => []

theorem find?_name (l : List PColumn) (hnd : (l.map (·.name)).Nodup)
    (col : PColumn) (h : col ∈ l) :
    l.find? (fun x => x.name = col.name) = some col := by
  induction l with
  | nil => cases h
  | cons c t ih =>
      by_cases hc : c.name = col.name
      · have hcc : c = col := by
          rcases List.mem_cons.mp h with rfl | hmem
          · rfl
          · exfalso
            have hmn : col.name ∈ t.map (·.name) := List.mem_map_of_mem _ hmem
            rw [← hc] at hmn
            exact (List.nodup_cons.mp hnd).1 hmn
        rw [List.find?_cons_of_pos _ (by simp [hc]), hcc]
      · rcases List.mem_cons.mp h with rfl | hmem
        · exact absurd rfl hc
        · rw [List.find?_cons_of_neg _ (by simp [hc])]
          exact ih (List.nodup_cons.mp hnd).2 hmem

theorem dfValues_eq (df : PDataFrame) (hnodup : (df.cols.map (·.name)).Nodup)
    (col : PColumn) (h : col ∈ df.cols) : dfValues df col.name = col.values := by
  unfold dfValues
  rw [find?_name df.cols hnodup col h]

theorem mkHdrs_index (us : String → String) (columns : List String) :
    ∀ (start : Nat) (cols : List PColumn) (rec : HdrRec),
      rec ∈ mkHdrs us columns start cols →
      ∃ j col, cols.get? j = some col ∧ rec.index = start + j ∧
        rec.name = col.name := by
  intro start cols
  induction cols generalizing start with
  | nil => intro rec h; cases h
  | cons c t ih =>
      intro rec h
      rcases List.mem_cons.mp h with rfl | hmem
      · exact ⟨0, c, rfl, (Nat.add_zero start).symm, rfl⟩
      · obtain ⟨j, col, hj, hidx, hname⟩ := ih (start + 1) rec hmem
        exact ⟨j + 1, col, by simpa using hj, by omega, hname⟩

/-- Every registry entry of one category slices to its own column's
row range. -/
theorem entry_slice (us : String → String) (df : PDataFrame)
    (hnodup : (df.cols.map (·.name)).Nodup) (c : RatCat)
    (rowStart : Nat) (rowEnd : Option Nat) :
    ∀ ent ∈ catEntries ((dfParts df c).map (·.values))
        (mkHdrs us (df.cols.map (·.name)) 0 (dfParts df c)),
      sliceCol ent.2.1 ent.2.2.1 rowStart rowEnd =
        .ok (pySlice (dfValues df ent.1) rowStart rowEnd) := by
  intro ent hent
  obtain ⟨rec, hrec, rfl⟩ := List.mem_map.mp hent
  obtain ⟨j, col, hj, hidx, hname⟩ :=
    mkHdrs_index us (df.cols.map (·.name)) 0 (dfParts df c) rec hrec
  dsimp only
  unfold sliceCol
  have hg : ((dfParts df c).map (·.values)).get? rec.index = some col.values := by
    rw [hidx, Nat.zero_add, List.get?_eq_getElem?, List.getElem?_map]
    rw [List.get?_eq_getElem?] at hj
    rw [hj]
    rfl
  rw [hg, hname,
    dfValues_eq df hnodup col (List.mem_of_mem_filter (List.get?_mem hj))]

theorem readAllCols_run (rowStart : Nat) (rowEnd : Option Nat)
    (f : String → List RatValue) :
    ∀ l, (∀ ent ∈ l, sliceCol ent.2.1 ent.2.2.1 rowStart rowEnd = .ok (f ent.1)) →
      readAllCols rowStart rowEnd l = .ok (l.map fun ent => (ent.1, f ent.1)) := by
  intro l
  induction l with
  | nil => intro _; rfl
  | cons ent rest ih =>
      intro h
      rw [readAllCols, h ent (List.mem_cons_self _ _),
        ih (fun e he => h e (List.mem_cons_of_mem _ he))]
      rfl

theorem readRatCols_run (info : RatInfo) (rowStart : Nat) (rowEnd : Option Nat)
    (f : String → List RatValue) :
    ∀ sub, (∀ s ∈ sub, ∃ ds idx tbl,
        dictGet info.lookup s = some (ds, idx, tbl) ∧
        sliceCol ds idx rowStart rowEnd = .ok (f s) ∧
        info.names.get? tbl = some (.inr s)) →
      readRatCols info rowStart rowEnd sub =
        .ok (sub.map fun s => (s, f s), sub.map fun s => Sum.inr s) := by
  intro sub
  induction sub with
  | nil => intro _; rfl
  | cons s rest ih =>
      intro h
      obtain ⟨ds, idx, tbl, hdg, hsl, hnm⟩ := h s (List.mem_cons_self _ _)
      rw [readRatCols, hdg]
      dsimp only
      rw [hsl]
      dsimp only
      rw [hnm]
      dsimp only
      rw [ih (fun t ht => h t (List.mem_cons_of_mem _ ht))]
      rfl

theorem dictGet_graph (f : String → List RatValue) :
    ∀ (sub : List String) (s : String), s ∈ sub →
      dictGet (sub.map fun t => (t, f t)) s = some (f s) := by
  intro sub
  induction sub with
  | nil => intro s h; cases h
  | cons t rest ih =>
      intro s h
      by_cases ht : t = s
      · simp [dictGet, ht]
      · rw [List.map_cons, dictGet, if_neg ht]
        rcases List.mem_cons.mp h with rfl | hmem
        · exact absurd rfl ht
        · exact ih s hmem

theorem dictGet_map_entries (f : String → List RatValue) :
    ∀ (l : List (String × (List (List RatValue) × Nat × Nat))) (s : String),
      dictGet (l.map fun ent => (ent.1, f ent.1)) s =
        (dictGet l s).map fun _ => f s := by
  intro l s
  induction l with
  | nil => rfl
  | cons ent rest ih =>
      by_cases h : ent.1 = s
      · simp [dictGet, h]
      · simp only [List.map_cons, dictGet, if_neg h]
        exact ih

theorem mkFrame_sub (f : String → List RatValue) (sub : List String) :
    mkFrame (sub.map fun s => (s, f s)) (sub.map fun s => Sum.inr s) =
      sub.map fun s => (Sum.inr s, some (f s)) := by
  unfold mkFrame
  rw [List.map_map]
  apply List.map_congr_left
  intro s hs
  dsimp only [Function.comp]
  rw [dictGet_graph f sub s hs]

/-- Resolving an authored column's name through the full concatenated
registry lookup: it lands in its own category's entries, at its local
partition position, carrying its first authored position; the slice at
that address returns the column's own row range. -/
theorem lookup_resolve (us : String → String) (df : PDataFrame)
    (hnodup : (df.cols.map (·.name)).Nodup) (col : PColumn)
    (hcol : col ∈ df.cols) (rowStart : Nat) (rowEnd : Option Nat) :
    ∃ ds idx tbl,
      dictGet (catEntries ((dfParts df .bool).map (·.values))
          (mkHdrs us (df.cols.map (·.name)) 0 (dfParts df .bool)) ++
        (catEntries ((dfParts df .int).map (·.values))
          (mkHdrs us (df.cols.map (·.name)) 0 (dfParts df .int)) ++
         (catEntries ((dfParts df .float).map (·.values))
           (mkHdrs us (df.cols.map (·.name)) 0 (dfParts df .float)) ++
          catEntries ((dfParts df .str).map (·.values))
            (mkHdrs us (df.cols.map (·.name)) 0 (dfParts df .str)))))
        col.name = some (ds, idx, tbl) ∧
      sliceCol ds idx rowStart rowEnd = .ok (pySlice col.values rowStart rowEnd) ∧
      ((df.cols.map (·.name)).map (Sum.inr : String → Sum Nat String)).get? tbl =
        some (.inr col.name) := by
  have hpm : col ∈ dfParts df col.cat := List.mem_filter.mpr ⟨hcol, by simp⟩
  obtain ⟨⟨jloc, hjlt⟩, hjeq⟩ := List.mem_iff_get.mp hpm
  have hget : (dfParts df col.cat).get? jloc = some col := by
    rw [List.get?_eq_get hjlt, hjeq]
  have hcatEq := dictGet_catEntries us (df.cols.map (·.name))
    ((dfParts df col.cat).map (·.values)) (dfParts df col.cat) 0 jloc col hget
    (parts_names_nodup df col.cat hnodup)
  rw [Nat.zero_add] at hcatEq
  have hnone : ∀ c', col.cat ≠ c' →
      dictGet (catEntries ((dfParts df c').map (·.values))
        (mkHdrs us (df.cols.map (·.name)) 0 (dfParts df c'))) col.name = none := by
    intro c' hne
    apply dictGet_eq_none
    rw [catEntries_keys, mkHdrs_names]
    exact name_not_in_parts df hnodup col hcol c' hne
  refine ⟨(dfParts df col.cat).map (·.values), jloc,
    (df.cols.map (·.name)).findIdx fun n => n = col.name, ?_, ?_, ?_⟩
  · cases hcc : col.cat with
    | bool =>
        rw [hcc] at hcatEq
        exact dictGet_append_of_some _ _ _ _ hcatEq
    | int =>
        rw [hcc] at hcatEq
        rw [dictGet_append_of_none _ _ _ (hnone _ (by rw [hcc]; decide))]
        exact dictGet_append_of_some _ _ _ _ hcatEq
    | float =>
        rw [hcc] at hcatEq
        rw [dictGet_append_of_none _ _ _ (hnone _ (by rw [hcc]; decide)),
          dictGet_append_of_none _ _ _ (hnone _ (by rw [hcc]; decide))]
        exact dictGet_append_of_some _ _ _ _ hcatEq
    | str =>
        rw [hcc] at hcatEq
        rw [dictGet_append_of_none _ _ _ (hnone _ (by rw [hcc]; decide)),
          dictGet_append_of_none _ _ _ (hnone _ (by rw [hcc]; decide)),
          dictGet_append_of_none _ _ _ (hnone _ (by rw [hcc]; decide))]
        exact hcatEq
  · have hv : ((dfParts df col.cat).map (·.values)).get? jloc = some col.values := by
      rw [List.get?_eq_getElem?, List.getElem?_map]
      rw [List.get?_eq_getElem?] at hget
      rw [hget]
      rfl
    unfold sliceCol
    rw [hv]
  · rw [List.get?_eq_getElem?, List.getElem?_map]
    have hf := get?_findIdx_self (df.cols.map (·.name)) col.name
      (List.mem_map_of_mem _ hcol)
    rw [List.get?_eq_getElem?] at hf
    rw [hf]
    rfl

theorem dictGet_slices (df : PDataFrame) (rowStart : Nat) (rowEnd : Option Nat) :
    ∀ (l : List (String × (List (List RatValue) × Nat × Nat))) (s : String),
      dictGet (l.map fun ent =>
          (ent.1, pySlice (dfValues df ent.1) rowStart rowEnd)) s =
        (dictGet l s).map fun _ => pySlice (dfValues df s) rowStart rowEnd := by
  intro l s
  induction l with
  | nil => rfl
  | cons ent rest ih =>
      by_cases h : ent.1 = s
      · simp [dictGet, h]
      · simp only [List.map_cons, dictGet, if_neg h]
        exact ih

theorem sum_beq_self (a : Sum Nat String) : (a == a) = true := by
  cases a with
  | inl n => exact decide_eq_true rfl
  | inr s => exact decide_eq_true rfl

theorem contains_of_mem (l : List (Sum Nat String)) (a : Sum Nat String)
    (h : a ∈ l) : l.contains a = true := by
  induction l with
  | nil => cases h
  | cons b t ih =>
      show List.elem a (b :: t) = true
      rw [List.elem_cons]
      rcases List.mem_cons.mp h with rfl | hmem
      · rw [sum_beq_self a]
      · cases hab : a == b
        · exact ih hmem
        · rfl

/-- Explicit-subset `read_rat` core on a registry whose result-name
list is the authored labels: every resolvable requested name comes back
in requested order with its sliced values. -/
theorem readRatCore_sub_run (info : RatInfo) (df : PDataFrame) (rowStart : Nat)
    (rowEnd : Option Nat) (sub : List String)
    (hnames : info.names =
      (df.cols.map (·.name)).map (Sum.inr : String → Sum Nat String))
    (hres : ∀ s ∈ sub, ∃ ds idx tbl,
      dictGet info.lookup s = some (ds, idx, tbl) ∧
      sliceCol ds idx rowStart rowEnd =
        .ok (pySlice (dfValues df s) rowStart rowEnd) ∧
      info.names.get? tbl = some (.inr s))
    (hsub : ∀ s ∈ sub, s ∈ df.cols.map (·.name)) :
    readRatCore info (some sub) rowStart rowEnd =
      .ok (sub.map fun s =>
        (Sum.inr s, some (pySlice (dfValues df s) rowStart rowEnd))) := by
  have hall : (sub.all fun c => info.names.contains (Sum.inr c)) = true := by
    rw [List.all_eq_true]
    intro s hs
    have hmem : (Sum.inr s : Sum Nat String) ∈ info.names := by
      rw [hnames]
      exact List.mem_map_of_mem _ (hsub s hs)
    exact contains_of_mem _ _ hmem
  unfold readRatCore
  dsimp only
  rw [if_neg (not_not_intro hall)]
  rw [readRatCols_run info rowStart rowEnd
    (fun s => pySlice (dfValues df s) rowStart rowEnd) sub hres]
  dsimp only
  rw [mkFrame_sub]

/-- Default (all-columns) `read_rat` core on such a registry: every
authored column comes back in authored order with its sliced values. -/
theorem readRatCore_all_run (info : RatInfo) (df : PDataFrame) (rowStart : Nat)
    (rowEnd : Option Nat)
    (hnodup : (df.cols.map (·.name)).Nodup)
    (hnames : info.names =
      (df.cols.map (·.name)).map (Sum.inr : String → Sum Nat String))
    (hne : info.lookup ≠ [])
    (hslice : ∀ ent ∈ info.lookup,
      sliceCol ent.2.1 ent.2.2.1 rowStart rowEnd =
        .ok (pySlice (dfValues df ent.1) rowStart rowEnd))
    (hlkp : ∀ col ∈ df.cols, (dictGet info.lookup col.name).isSome = true) :
    readRatCore info none rowStart rowEnd =
      .ok (df.cols.map fun col =>
        (Sum.inr col.name, some (pySlice col.values rowStart rowEnd))) := by
  unfold readRatCore
  dsimp only
  rw [if_neg (by simp [List.isEmpty_iff, hne])]
  rw [readAllCols_run rowStart rowEnd
    (fun s => pySlice (dfValues df s) rowStart rowEnd) info.lookup hslice]
  dsimp only
  rw [hnames]
  unfold mkFrame
  rw [List.map_map, List.map_map]
  apply congrArg
  apply List.map_congr_left
  intro col hcol
  dsimp only [Function.comp]
  rw [dictGet_slices]
  obtain ⟨v, hv⟩ := Option.isSome_iff_exists.mp (hlkp col hcol)
  rw [hv]
  dsimp only [Option.map]
  rw [dfValues_eq df hnodup col hcol]

/-- C1: for a table whose nodup-named columns span all four supported
element-type categories, writing it with `write_rat` to a valid band
with a fresh ATT area and reading back with `read_rat` reproduces the
table exactly: an explicit column subset returns those columns in the
requested order, and the default read returns every authored column in
authored order (the recorded global indices rebuild the authored
labels), in both cases carrying the exact values of the requested row
sub-range `[rowStart, rowEnd)`. -/
theorem claim_C1 (st : KeaState) (df : PDataFrame) (band cs rowStart : Nat)
    (rowEnd : Option Nat) (sub : List String)
    (hband : 1 ≤ band ∧ band ≤ st.count)
    (hnodup : (df.cols.map (·.name)).Nodup)
    (hspan : ∀ c, dfParts df c ≠ [])
    (hfd : ∀ c, (st.att band).dsets c = none)
    (hfh : ∀ c, (st.att band).hdrs c = none)
    (hsz : (st.att band).sizeArr = [0, 0, 0, 0, 0])
    (hsub : ∀ s ∈ sub, s ∈ df.cols.map (·.name)) :
    ∃ st', writeRat st df band none cs = .ok st' ∧
      readRat st' band (some sub) rowStart rowEnd =
        .ok (sub.map fun s =>
          (Sum.inr s, some (pySlice (dfValues df s) rowStart rowEnd))) ∧
      readRat st' band none rowStart rowEnd =
        .ok (df.cols.map fun col =>
          (Sum.inr col.name, some (pySlice col.values rowStart rowEnd))) := by
  obtain ⟨rs2, hw, hs2, hd2, hh2⟩ := writeRat_char st df band cs hband hfd hfh hsz
  have hp := prepRat_char rs2 df (fun _ => "Generic") (df.cols.map (·.name))
    hs2 hd2 hh2
  rw [names_final (fun _ => "Generic") df hnodup] at hp
  refine ⟨_, hw, ?_, ?_⟩
  · unfold readRat
    dsimp only
    rw [if_neg (not_not_intro hband), if_pos rfl, hp]
    dsimp only
    refine readRatCore_sub_run _ df rowStart rowEnd sub rfl ?_ hsub
    intro s hs
    obtain ⟨col, hcolmem, hname⟩ := List.mem_map.mp (hsub s hs)
    obtain ⟨ds, idx, tbl, h1, h2, h3⟩ :=
      lookup_resolve (fun _ => "Generic") df hnodup col hcolmem rowStart rowEnd
    rw [← dfValues_eq df hnodup col hcolmem] at h2
    subst hname
    exact ⟨ds, idx, tbl, h1, h2, h3⟩
  · unfold readRat
    dsimp only
    rw [if_neg (not_not_intro hband), if_pos rfl, hp]
    dsimp only
    refine readRatCore_all_run _ df rowStart rowEnd hnodup rfl ?_ ?_ ?_
    · cases hdb : dfParts df RatCat.bool with
      | nil => exact absurd hdb (hspan RatCat.bool)
      | cons c t => simp [catEntries, mkHdrs]
    · intro ent hent
      rcases List.mem_append.mp hent with h | h
      · exact entry_slice (fun _ => "Generic") df hnodup .bool rowStart rowEnd ent h
      · rcases List.mem_append.mp h with h | h
        · exact entry_slice (fun _ => "Generic") df hnodup .int rowStart rowEnd ent h
        · rcases List.mem_append.mp h with h | h
          · exact entry_slice (fun _ => "Generic") df hnodup .float rowStart rowEnd
              ent h
          · exact entry_slice (fun _ => "Generic") df hnodup .str rowStart rowEnd
              ent h
    · intro col hcol
      obtain ⟨ds, idx, tbl, h1, _, _⟩ :=
        lookup_resolve (fun _ => "Generic") df hnodup col hcol rowStart rowEnd
      exact Option.isSome_iff_exists.mpr ⟨_, h1⟩

/-- A four-column table spanning all four categories, three rows. -/
def dfC1 : PDataFrame :=
  ⟨[⟨"flag", .bool, [.vb true, .vb false, .vb true]⟩,
    ⟨"klass", .int, [.vi 1, .vi 2, .vi 3]⟩,
    ⟨"area", .float, [.vf 10, .vf (5 / 2), .vf 30]⟩,
    ⟨"label", .str, [.vs "a", .vs "b", .vs "c"]⟩], 3⟩

/-- A one-band container with a fresh ATT area. -/
def stC1 : KeaState := ⟨1, fun _ => freshRat⟩

/-- C1, instantiated: the four-category table written to band 1 reads
back exactly, both for the reordered subset `["label", "klass"]` and
for the default all-columns read, over the row sub-range `[1, 3)`. -/
theorem claim_C1_witness :
    ∃ st', writeRat stC1 dfC1 1 none 256 = .ok st' ∧
      readRat st' 1 (some ["label", "klass"]) 1 (some 3) =
        .ok [(Sum.inr "label", some [.vs "b", .vs "c"]),
             (Sum.inr "klass", some [.vi 2, .vi 3])] ∧
      readRat st' 1 none 1 (some 3) =
        .ok [(Sum.inr "flag", some [.vb false, .vb true]),
             (Sum.inr "klass", some [.vi 2, .vi 3]),
             (Sum.inr "area", some [.vf (5 / 2), .vf 30]),
             (Sum.inr "label", some [.vs "b", .vs "c"])] := by
  obtain ⟨st', h1, h2, h3⟩ := claim_C1 stC1 dfC1 1 256 1 (some 3)
    ["label", "klass"] (by decide) (by decide) (by decide) (by decide)
    (by decide) (by decide) (by decide)
  refine ⟨st', h1, ?_, ?_⟩
  · rw [h2]
    rfl
  · rw [h3]
    rfl
